import Mathlib

/-!
# Verification of the rule-engine expression language

Shallow embedding of the repository's rule-expression core
(`src/backend/src/domain/expression_parser.py`,
`src/backend/src/domain/expression_evaluator.py`,
`src/backend/src/domain/reason_generator.py`,
`src/backend/src/application/services.py`) together with proofs of the
spec claims about it.

Conventions of the embedding:
* Python runtime values occurring in payloads, literals and tokens are
  modelled by `Value` (int, float, str, bool, None, list).  Float
  literals are kept opaque (the raw literal text); no claim evaluates
  float arithmetic, so cross-type numeric coercions involving floats are
  not modelled.
* Python exceptions become `Except` results; each evaluator's error type
  lists exactly the exception classes the corresponding Python code can
  raise.
* Python scanning loops on a string with a moving index are modelled as
  structural recursion on the remaining character list, with the index
  carried alongside for token positions and error reporting.  Loops
  whose step is not structurally decreasing take an explicit fuel
  parameter; the sufficiency of the fuel used by the entry points is
  proved, not assumed.
-/

namespace RuleEngine

/-- Python values as they occur in payloads and expression literals
(`Any` in the source).  `float` keeps the raw literal text: no claim
computes with floats. -/
inductive Value where
  | int (n : Int)
  | float (lit : String)
  | str (s : String)
  | bool (b : Bool)
  | null
  | list (vs : List Value)

mutual

/-- Decidable (Lean-level, structural) equality on `Value`; the
deriving handler does not support the nested list.  Python `==` is
`pyEq` below, a different relation. -/
def Value.decEq : (a b : Value) → Decidable (a = b)
  | .int a, .int b =>
    if h : a = b then .isTrue (by rw [h])
    else .isFalse (by intro hc; injection hc; contradiction)
  | .float a, .float b =>
    if h : a = b then .isTrue (by rw [h])
    else .isFalse (by intro hc; injection hc; contradiction)
  | .str a, .str b =>
    if h : a = b then .isTrue (by rw [h])
    else .isFalse (by intro hc; injection hc; contradiction)
  | .bool a, .bool b =>
    if h : a = b then .isTrue (by rw [h])
    else .isFalse (by intro hc; injection hc; contradiction)
  | .null, .null => .isTrue rfl
  | .list xs, .list ys =>
    match Value.decEqList xs ys with
    | .isTrue h => .isTrue (by rw [h])
    | .isFalse h => .isFalse (by intro hc; injection hc; contradiction)
  | .int _, .float _ => .isFalse nofun
  | .int _, .str _ => .isFalse nofun
  | .int _, .bool _ => .isFalse nofun
  | .int _, .null => .isFalse nofun
  | .int _, .list _ => .isFalse nofun
  | .float _, .int _ => .isFalse nofun
  | .float _, .str _ => .isFalse nofun
  | .float _, .bool _ => .isFalse nofun
  | .float _, .null => .isFalse nofun
  | .float _, .list _ => .isFalse nofun
  | .str _, .int _ => .isFalse nofun
  | .str _, .float _ => .isFalse nofun
  | .str _, .bool _ => .isFalse nofun
  | .str _, .null => .isFalse nofun
  | .str _, .list _ => .isFalse nofun
  | .bool _, .int _ => .isFalse nofun
  | .bool _, .float _ => .isFalse nofun
  | .bool _, .str _ => .isFalse nofun
  | .bool _, .null => .isFalse nofun
  | .bool _, .list _ => .isFalse nofun
  | .null, .int _ => .isFalse nofun
  | .null, .float _ => .isFalse nofun
  | .null, .str _ => .isFalse nofun
  | .null, .bool _ => .isFalse nofun
  | .null, .list _ => .isFalse nofun
  | .list _, .int _ => .isFalse nofun
  | .list _, .float _ => .isFalse nofun
  | .list _, .str _ => .isFalse nofun
  | .list _, .bool _ => .isFalse nofun
  | .list _, .null => .isFalse nofun

/-- Decidable equality on value lists. -/
def Value.decEqList : (xs ys : List Value) → Decidable (xs = ys)
  | [], [] => .isTrue rfl
  | [], _ :: _ => .isFalse nofun
  | _ :: _, [] => .isFalse nofun
  | x :: xs, y :: ys =>
    match Value.decEq x y, Value.decEqList xs ys with
    | .isTrue h₁, .isTrue h₂ => .isTrue (by rw [h₁, h₂])
    | .isFalse h₁, _ => .isFalse (by intro hc; injection hc; contradiction)
    | _, .isFalse h₂ => .isFalse (by intro hc; injection hc; contradiction)

end

instance : DecidableEq Value := Value.decEq

deriving instance DecidableEq for Except

/-- `type(x).__name__` for the modelled value kinds. -/
def Value.typeName : Value → String
  | .int _ => "int"
  | .float _ => "float"
  | .str _ => "str"
  | .bool _ => "bool"
  | .null => "NoneType"
  | .list _ => "list"

/-- Python `bool` is an `int` subtype: `True == 1`, `False == 0`. -/
def boolToInt (b : Bool) : Int := if b then 1 else 0

mutual

/-- Python `==` on the modelled values.  Builtin equality never raises;
cross-type comparisons (other than the bool/int coercion) are `False`. -/
def pyEq : Value → Value → Bool
  | .int a, .int b => a == b
  | .int a, .bool b => a == boolToInt b
  | .bool a, .int b => boolToInt a == b
  | .bool a, .bool b => a == b
  | .float a, .float b => a == b
  | .str a, .str b => a == b
  | .null, .null => true
  | .list xs, .list ys => pyEqList xs ys
  | _, _ => false

/-- Elementwise Python `==` on lists. -/
def pyEqList : List Value → List Value → Bool
  | [], [] => true
  | x :: xs, y :: ys => pyEq x y && pyEqList xs ys
  | _, _ => false

end

mutual

/-- Python `<`.  `none` models a `TypeError` (unorderable operand
types).  Strings compare lexicographically by code point, lists
lexicographically elementwise; bools coerce to ints; `None` and opaque
floats are unorderable in the model. -/
def pyLt : Value → Value → Option Bool
  | .int a, .int b => some (decide (a < b))
  | .int a, .bool b => some (decide (a < boolToInt b))
  | .bool a, .int b => some (decide (boolToInt a < b))
  | .bool a, .bool b => some (decide (boolToInt a < boolToInt b))
  | .str a, .str b => some (decide (a < b))
  | .list xs, .list ys => pyLtList xs ys
  | _, _ => none

/-- Python `<` on lists: skip the longest common prefix (by `==`), then
compare the first differing elements; a strict prefix is smaller. -/
def pyLtList : List Value → List Value → Option Bool
  | [], [] => some false
  | [], _ :: _ => some true
  | _ :: _, [] => some false
  | x :: xs, y :: ys => if pyEq x y then pyLtList xs ys else pyLt x y

end

mutual

/-- Python `<=`; `none` models a `TypeError`. -/
def pyLe : Value → Value → Option Bool
  | .int a, .int b => some (decide (a ≤ b))
  | .int a, .bool b => some (decide (a ≤ boolToInt b))
  | .bool a, .int b => some (decide (boolToInt a ≤ b))
  | .bool a, .bool b => some (decide (boolToInt a ≤ boolToInt b))
  | .str a, .str b => some (decide (a ≤ b))
  | .list xs, .list ys => pyLeList xs ys
  | _, _ => none

/-- Python `<=` on lists. -/
def pyLeList : List Value → List Value → Option Bool
  | [], _ => some true
  | _ :: _, [] => some false
  | x :: xs, y :: ys => if pyEq x y then pyLeList xs ys else pyLt x y

end

/-- Python `>`: for the builtin types involved, `a > b` iff `b < a`. -/
def pyGt (a b : Value) : Option Bool := pyLt b a

/-- Python `>=`: for the builtin types involved, `a >= b` iff `b <= a`. -/
def pyGe (a b : Value) : Option Bool := pyLe b a

/-- Python `x in ys` for a list `ys` (membership by `==`; never
raises). -/
def pyInList (x : Value) (ys : List Value) : Bool := ys.any (fun y => pyEq x y)

/-- Python `needle in hay` for strings: contiguous-substring test. -/
def strContainsSub (hay needle : String) : Bool :=
  (List.range (hay.toList.length + 1)).any
    (fun i => needle.toList.isPrefixOf (hay.toList.drop i))

/-- A payload (`Dict[str, Any]`), as an association list with the
dictionary's key-uniqueness left implicit; lookups take the first
binding. -/
def Payload := List (String × Value)

/-- `field in payload` / `payload[field]` combined: dictionary lookup. -/
def Payload.find (p : Payload) (f : String) : Option Value :=
  List.lookup f p

/-- `payload.get(field)`: lookup defaulting to Python `None`. -/
def Payload.getd (p : Payload) (f : String) : Value :=
  (p.find f).getD .null

/-- Right-hand side of a `ComparisonNode`: the Python pair
`(value, is_field_comparison)` — a literal when the flag is false, a
field name when it is true. -/
inductive Rhs where
  | lit (v : Value)
  | fieldRef (name : String)
  deriving DecidableEq

/-- `node.is_field_comparison`. -/
def Rhs.isFieldComparison : Rhs → Bool
  | .lit _ => false
  | .fieldRef _ => true

/-- `node.value` viewed as a `Value` (for a field comparison the stored
value is the compared field's name string). -/
def Rhs.storedValue : Rhs → Value
  | .lit v => v
  | .fieldRef g => .str g

/-- Expression AST: `ComparisonNode` and `BinaryOpNode` from
`expression_parser.py`.  Operators are strings, as in the source. -/
inductive Expr where
  | cmp (field : String) (operator : String) (rhs : Rhs)
  | binop (operator : String) (left right : Expr)
  deriving DecidableEq

/-- Exceptions the evaluators can raise (`domain/exceptions.py`), plus
the `KeyError` that `DetailedExpressionEvaluator._perform_comparison`
would raise on an unchecked dictionary access (unreachable from its
caller, which checks first). -/
inductive EvalErr where
  | missingField (f : String)
  | typeMismatch (f expected actual : String)
  | evaluationError (msg : String)
  | keyError (f : String)
  deriving DecidableEq

/-- `str(e)` for the evaluator exceptions, as built by their
constructors in `domain/exceptions.py`. -/
def EvalErr.pyMessage : EvalErr → String
  | .missingField f => "Required field '" ++ f ++ "' is missing from payload"
  | .typeMismatch f e a =>
      "Type mismatch for field '" ++ f ++ "': expected " ++ e ++ ", got " ++ a
  | .evaluationError m => m
  | .keyError f => f

/-- The operator dispatch of `ExpressionEvaluator._evaluate_comparison`
(the body of its `try` block), applied to the resolved operand values.
The `except TypeError` handler of the source maps an unorderable or
non-string-membership comparison to
`TypeMismatch(field, type(expected).__name__, type(actual).__name__)`. -/
def comparisonOpPlain (field op : String) (actual expected : Value) :
    Except EvalErr Bool :=
  if op == "==" then .ok (pyEq actual expected)
  else if op == "!=" then .ok (!pyEq actual expected)
  else if op == ">" then
    match pyGt actual expected with
    | some b => .ok b
    | none => .error (.typeMismatch field expected.typeName actual.typeName)
  else if op == ">=" then
    match pyGe actual expected with
    | some b => .ok b
    | none => .error (.typeMismatch field expected.typeName actual.typeName)
  else if op == "<" then
    match pyLt actual expected with
    | some b => .ok b
    | none => .error (.typeMismatch field expected.typeName actual.typeName)
  else if op == "<=" then
    match pyLe actual expected with
    | some b => .ok b
    | none => .error (.typeMismatch field expected.typeName actual.typeName)
  else if op == "contains" then
    match actual with
    | .str s =>
      match expected with
      | .str t => .ok (strContainsSub s t)
      | _ => .error (.typeMismatch field expected.typeName actual.typeName)
    | .list l => .ok (pyInList expected l)
    | _ => .error (.typeMismatch field "string or list" actual.typeName)
  else if op == "not_contains" then
    match actual with
    | .str s =>
      match expected with
      | .str t => .ok (!strContainsSub s t)
      | _ => .error (.typeMismatch field expected.typeName actual.typeName)
    | .list l => .ok (!pyInList expected l)
    | _ => .error (.typeMismatch field "string or list" actual.typeName)
  else if op == "in" then
    match expected with
    | .list l => .ok (pyInList actual l)
    | _ => .error (.typeMismatch field "expected value to be a list" expected.typeName)
  else if op == "not_in" then
    match expected with
    | .list l => .ok (!pyInList actual l)
    | _ => .error (.typeMismatch field "expected value to be a list" expected.typeName)
  else .error (.evaluationError ("Unsupported operator: " ++ op))

/-- `ExpressionEvaluator._evaluate_comparison`: resolve the left field
(raising `MissingField` when absent), resolve the right side (literal,
or field lookup raising `MissingField`), then dispatch on the
operator. -/
def evaluateComparison (payload : Payload) (field op : String) (rhs : Rhs) :
    Except EvalErr Bool :=
  match payload.find field with
  | none => .error (.missingField field)
  | some actual =>
    match rhs with
    | .fieldRef g =>
      match payload.find g with
      | none => .error (.missingField g)
      | some expected => comparisonOpPlain field op actual expected
    | .lit v => comparisonOpPlain field op actual v

/-- `ExpressionEvaluator.evaluate` / `_evaluate_binary_op`: the plain
(non-tracing) evaluator.  Binary nodes evaluate both operands before
combining; an exception from the left operand propagates before the
right operand is reached. -/
def evaluateExpr (payload : Payload) : Expr → Except EvalErr Bool
  | .cmp field op rhs => evaluateComparison payload field op rhs
  | .binop op l r =>
    match evaluateExpr payload l with
    | .error e => .error e
    | .ok lb =>
      match evaluateExpr payload r with
      | .error e => .error e
      | .ok rb =>
        if op == "AND" then .ok (lb && rb)
        else if op == "OR" then .ok (lb || rb)
        else .error (.evaluationError ("Unknown binary operator: " ++ op))

/-- One entry of `DetailedExpressionEvaluator.comparison_results`: the
dictionary appended by `_evaluate_comparison_with_tracking`.  A missing
`"error"` key is `none`; `"compared_field"` is `none` when the Python
code stores `None`. -/
structure TraceEntry where
  field : String
  operator : String
  expected : Value
  actual : Value
  passed : Bool
  isFieldComparison : Bool
  comparedField : Option String
  error : Option String := none
  deriving DecidableEq

/-- `"compared_field": node.value if node.is_field_comparison else None`. -/
def Rhs.comparedField : Rhs → Option String
  | .lit _ => none
  | .fieldRef g => some g

/-- The operator dispatch of
`DetailedExpressionEvaluator._perform_comparison` (the body of its
`try` block).  The source duplicates the dispatch of
`_evaluate_comparison`; the duplication is kept here, and the agreement
of the two copies is a theorem, not an assumption. -/
def performComparisonOp (field op : String) (actual expected : Value) :
    Except EvalErr Bool :=
  if op == "==" then .ok (pyEq actual expected)
  else if op == "!=" then .ok (!pyEq actual expected)
  else if op == ">" then
    match pyGt actual expected with
    | some b => .ok b
    | none => .error (.typeMismatch field expected.typeName actual.typeName)
  else if op == ">=" then
    match pyGe actual expected with
    | some b => .ok b
    | none => .error (.typeMismatch field expected.typeName actual.typeName)
  else if op == "<" then
    match pyLt actual expected with
    | some b => .ok b
    | none => .error (.typeMismatch field expected.typeName actual.typeName)
  else if op == "<=" then
    match pyLe actual expected with
    | some b => .ok b
    | none => .error (.typeMismatch field expected.typeName actual.typeName)
  else if op == "contains" then
    match actual with
    | .str s =>
      match expected with
      | .str t => .ok (strContainsSub s t)
      | _ => .error (.typeMismatch field expected.typeName actual.typeName)
    | .list l => .ok (pyInList expected l)
    | _ => .error (.typeMismatch field "string or list" actual.typeName)
  else if op == "not_contains" then
    match actual with
    | .str s =>
      match expected with
      | .str t => .ok (!strContainsSub s t)
      | _ => .error (.typeMismatch field expected.typeName actual.typeName)
    | .list l => .ok (!pyInList expected l)
    | _ => .error (.typeMismatch field "string or list" actual.typeName)
  else if op == "in" then
    match expected with
    | .list l => .ok (pyInList actual l)
    | _ => .error (.typeMismatch field "expected value to be a list" expected.typeName)
  else if op == "not_in" then
    match expected with
    | .list l => .ok (!pyInList actual l)
    | _ => .error (.typeMismatch field "expected value to be a list" expected.typeName)
  else .error (.evaluationError ("Unsupported operator: " ++ op))

/-- `DetailedExpressionEvaluator._perform_comparison`: resolves the
expected value itself (an unchecked `self.payload[node.value]` access,
hence `keyError` rather than `MissingField` when the compared field is
absent — unreachable from its caller, which checks first), then
dispatches. -/
def performComparison (payload : Payload) (field op : String) (rhs : Rhs)
    (actual : Value) : Except EvalErr Bool :=
  match rhs with
  | .fieldRef g =>
    match payload.find g with
    | none => .error (.keyError g)
    | some expected => performComparisonOp field op actual expected
  | .lit v => performComparisonOp field op actual v

/-- The `try` block of
`DetailedExpressionEvaluator._evaluate_comparison_with_tracking`: the
missing-field checks, the resolution of the operands, and the call to
`_perform_comparison`; on success it yields the passed flag together
with the resolved expected and actual values used by the success trace
entry. -/
def cmpTrackingAttempt (payload : Payload) (field op : String) (rhs : Rhs) :
    Except EvalErr (Bool × Value × Value) :=
  match payload.find field with
  | none => .error (.missingField field)
  | some actual =>
    match rhs with
    | .fieldRef g =>
      match payload.find g with
      | none => .error (.missingField g)
      | some expected =>
        match performComparison payload field op rhs actual with
        | .error e => .error e
        | .ok passed => .ok (passed, expected, actual)
    | .lit v =>
      match performComparison payload field op rhs actual with
      | .error e => .error e
      | .ok passed => .ok (passed, v, actual)

/-- `DetailedExpressionEvaluator._evaluate_comparison_with_tracking`:
evaluate one comparison, producing its result together with the trace
entry it appends.  A `MissingField` or `TypeMismatch` is recorded as an
error entry and re-raised; any other exception (unreachable) propagates
without an entry. -/
def evalCmpTracking (payload : Payload) (field op : String) (rhs : Rhs) :
    Except EvalErr Bool × Option TraceEntry :=
  match cmpTrackingAttempt payload field op rhs with
  | .ok (passed, expected, actual) =>
    (.ok passed,
     some { field := field, operator := op, expected := expected,
            actual := actual, passed := passed,
            isFieldComparison := rhs.isFieldComparison,
            comparedField := rhs.comparedField, error := none })
  | .error (.missingField f) =>
    (.error (.missingField f),
     some { field := field, operator := op,
            expected := (match rhs with
                         | .fieldRef g => payload.getd g
                         | .lit v => v),
            actual := payload.getd field, passed := false,
            isFieldComparison := rhs.isFieldComparison,
            comparedField := rhs.comparedField,
            error := some (EvalErr.missingField f).pyMessage })
  | .error (.typeMismatch f te ta) =>
    (.error (.typeMismatch f te ta),
     some { field := field, operator := op,
            expected := (match rhs with
                         | .fieldRef g => payload.getd g
                         | .lit v => v),
            actual := payload.getd field, passed := false,
            isFieldComparison := rhs.isFieldComparison,
            comparedField := rhs.comparedField,
            error := some (EvalErr.typeMismatch f te ta).pyMessage })
  | .error e => (.error e, none)

/-- `DetailedExpressionEvaluator.evaluate` / the inherited
`_evaluate_binary_op`, with the accumulated `comparison_results` list
made explicit.  Both operands of a binary node are evaluated before the
operator combines them; an exception from the left operand propagates
before the right operand is reached. -/
def evalDetailed (payload : Payload) :
    Expr → List TraceEntry → Except EvalErr Bool × List TraceEntry
  | .cmp field op rhs, acc =>
    match evalCmpTracking payload field op rhs with
    | (r, e) => (r, acc ++ e.toList)
  | .binop op l r, acc =>
    match evalDetailed payload l acc with
    | (.error e, acc₁) => (.error e, acc₁)
    | (.ok lb, acc₁) =>
      match evalDetailed payload r acc₁ with
      | (.error e, acc₂) => (.error e, acc₂)
      | (.ok rb, acc₂) =>
        if op == "AND" then (.ok (lb && rb), acc₂)
        else if op == "OR" then (.ok (lb || rb), acc₂)
        else (.error (.evaluationError ("Unknown binary operator: " ++ op)), acc₂)

/-- `evaluate_expression_detailed`: run the tracing evaluator and catch
`MissingField`, `TypeMismatch` and `EvaluationException`, returning
`False` with whatever trace was collected.  A `KeyError` (unreachable)
would escape the `except` clause. -/
def evaluateExpressionDetailed (ast : Expr) (payload : Payload) :
    Except EvalErr (Bool × List TraceEntry) :=
  match evalDetailed payload ast [] with
  | (.ok b, tr) => .ok (b, tr)
  | (.error (.keyError g), _) => .error (.keyError g)
  | (.error _, tr) => .ok (false, tr)

/-! ## Tokenizer (`ExpressionTokenizer`)

The Python scanner walks a fixed string with a cursor
`self.position`.  Here the yet-unread suffix is carried as a character
list (structural recursion) together with the cursor value, which feeds
token positions and error context windows; the full character list `s`
is threaded through for the context slices.  Character predicates are
the ASCII restrictions of Python's `str.isspace` / `str.isdigit` /
`str.isalnum` (no claim uses non-ASCII input). -/

/-- ASCII `str.isspace`. -/
def pyIsSpace (c : Char) : Bool :=
  c == ' ' || c == '\t' || c == '\n' || c == '\r' || c == '\x0b' || c == '\x0c'

/-- ASCII `str.isdigit`. -/
def pyIsDigit (c : Char) : Bool := '0' ≤ c && c ≤ '9'

/-- ASCII `str.isalpha`. -/
def pyIsAlpha (c : Char) : Bool :=
  ('a' ≤ c && c ≤ 'z') || ('A' ≤ c && c ≤ 'Z')

/-- `c.isalnum() or c == '_'`: the identifier characters of the
tokenizer (`_peek_word`, `_read_field`, operator boundary check). -/
def isIdentChar (c : Char) : Bool := pyIsAlpha c || pyIsDigit c || c == '_'

/-- Token types (`TokenType`). -/
inductive TokenType where
  | field
  | operator
  | value
  | and
  | or
  | lparen
  | rparen
  | eof
  deriving DecidableEq

/-- A token (`Token`): type, value (`Any` — strings for
field/operator/keyword/paren tokens, `None` for EOF, a literal for
value tokens), source position. -/
structure Token where
  type : TokenType
  value : Value
  position : Nat
  deriving DecidableEq

/-- Errors the tokenizer can raise.  The scanner's own `ValueError`s
(`unexpectedChar`, `singleEquals`) carry the offending position and a
±10-character context window; `badNumberLiteral` is the bare
`ValueError` escaping from `int()` / `float()` in `_read_number`, and
`indexError` the bare `IndexError` from `_read_array` indexing past the
end after skipping whitespace — neither of those carries a position. -/
inductive TokErr where
  | unexpectedChar (c : Char) (position : Nat) (context : String)
  | singleEquals (position : Nat) (context : String)
  | badNumberLiteral (lit : String)
  | indexError
  deriving DecidableEq

/-- Does the error carry an offending position and a context window? -/
def TokErr.hasPositionContext : TokErr → Bool
  | .unexpectedChar _ _ _ => true
  | .singleEquals _ _ => true
  | .badNumberLiteral _ => false
  | .indexError => false

/-- The ±10-character context window
`self.expression[max(0, pos-10):pos+10]`. -/
def ctxAt (s : List Char) (pos : Nat) : String :=
  String.mk ((s.drop (pos - 10)).take (pos + 10 - (pos - 10)))

/-- `_skip_whitespace`, returning the remaining suffix and cursor. -/
def skipWs : List Char → Nat → List Char × Nat
  | [], pos => ([], pos)
  | c :: rest, pos =>
    if pyIsSpace c then skipWs rest (pos + 1) else (c :: rest, pos)

/-- `_peek_word`: the maximal identifier-character run at the cursor. -/
def peekWord (rest : List Char) : List Char := rest.takeWhile isIdentChar

/-- The multi-character operator candidates, in the order
`_try_read_operator` tries them. -/
def opCandidates : List String :=
  ["not_contains", "not_in", "==", "!=", ">=", "<=", "contains", "in"]

/-- The word-shaped operators, which must not be followed by an
identifier character. -/
def wordOps : List String := ["in", "contains", "not_in", "not_contains"]

/-- The candidate loop of `_try_read_operator`: try each operator in
order; a word-shaped operator whose match is immediately followed by an
identifier character is skipped (`continue`), not taken. -/
def tryReadOpFrom : List String → List Char → Nat →
    Option (String × List Char × Nat)
  | [], _, _ => none
  | op :: ops, rest, pos =>
    if op.toList.isPrefixOf rest
        && !(decide (op ∈ wordOps)
              && (match (rest.drop op.length).head? with
                  | some c => isIdentChar c
                  | none => false)) then
      some (op, rest.drop op.length, pos + op.length)
    else tryReadOpFrom ops rest pos

/-- `_try_read_operator`: candidate loop, then the single-`=`
diagnostic, then the single-character operators `>` and `<`. -/
def tryReadOperator (s rest : List Char) (pos : Nat) :
    Except TokErr (Option (String × List Char × Nat)) :=
  match tryReadOpFrom opCandidates rest pos with
  | some r => .ok (some r)
  | none =>
    match rest with
    | [] => .ok none
    | c :: rest₂ =>
      if c == '=' then .error (.singleEquals pos (ctxAt s pos))
      else if c == '>' then .ok (some (">", rest₂, pos + 1))
      else if c == '<' then .ok (some ("<", rest₂, pos + 1))
      else .ok none

/-- The scan loop of `_read_string`, entered just past the opening
quote: collect raw characters (a backslash keeps itself and skips the
next character — no unescaping) until the closing quote or the end of
input; the cursor is advanced past the closing quote (or one past the
end, mirroring the unconditional `self.position += 1`). -/
def readStringBody : List Char → Char → Nat → List Char × List Char × Nat
  | [], _, pos => ([], [], pos + 1)
  | c :: rest, quote, pos =>
    if c == quote then ([], rest, pos + 1)
    else if c == '\\' then
      match rest with
      | [] => ([c], [], pos + 3)
      | c₂ :: rest₂ =>
        match readStringBody rest₂ quote (pos + 2) with
        | (v, r, p) => (c :: c₂ :: v, r, p)
    else
      match readStringBody rest quote (pos + 1) with
      | (v, r, p) => (c :: v, r, p)

/-- Value of digit characters. -/
def digitsToNat (ds : List Char) : Nat :=
  ds.foldl (fun acc c => acc * 10 + (c.toNat - Char.toNat '0')) 0

/-- Python `int(value_str)` restricted to the strings `_read_number`
can produce (an optional leading `-` followed by digit/dot characters):
succeeds exactly on an optional `-` followed by a nonempty digit run. -/
def parsePyInt (cs : List Char) : Option Int :=
  match cs with
  | [] => none
  | c :: rest =>
    if c == '-' then
      if !rest.isEmpty && rest.all pyIsDigit then some (-(digitsToNat rest : Int))
      else none
    else
      if (c :: rest).all pyIsDigit then some ((digitsToNat (c :: rest) : Int))
      else none

/-- Python `float(value_str)` restricted to the strings `_read_number`
can produce: succeeds exactly when, after an optional `-`, the
characters are digits with exactly one dot and at least one digit.  The
resulting value keeps the literal text (floats are opaque in the
model). -/
def parsePyFloat (cs : List Char) : Option Value :=
  let body := match cs with
    | [] => []
    | c :: r => if c == '-' then r else c :: r
  if body.count '.' == 1 && body.any pyIsDigit
      && body.all (fun c => pyIsDigit c || c == '.') then
    some (.float (String.mk cs))
  else none

/-- The digit/dot scan of `_read_number`, after the optional `-` has
been consumed (`neg` records it): take the maximal digit/dot run, then
`int()` or (when a dot is present) `float()` of the slice, whose
`ValueError` on a malformed literal propagates without a position. -/
def readNumberBody (neg : Bool) (rest₁ : List Char) (pos₁ : Nat) :
    Except TokErr (Value × List Char × Nat) :=
  let ds := rest₁.takeWhile (fun c => pyIsDigit c || c == '.')
  let rest₂ := rest₁.drop ds.length
  let pos₂ := pos₁ + ds.length
  let lit : List Char := (if neg then ['-'] else []) ++ ds
  if ds.contains '.' then
    match parsePyFloat lit with
    | some v => .ok (v, rest₂, pos₂)
    | none => .error (.badNumberLiteral (String.mk lit))
  else
    match parsePyInt lit with
    | some n => .ok (.int n, rest₂, pos₂)
    | none => .error (.badNumberLiteral (String.mk lit))

/-- `_read_number`: consume an optional leading `-`, then scan the
number.  The `[]` case cannot be reached from the scan loop, which
enters only on a digit or `-`. -/
def readNumber (rest : List Char) (pos : Nat) :
    Except TokErr (Value × List Char × Nat) :=
  match rest with
  | [] => readNumberBody false [] pos
  | c :: r =>
    if c == '-' then readNumberBody true r (pos + 1)
    else readNumberBody false (c :: r) pos

/-- Python `str.strip()` (ASCII whitespace). -/
def pyStrip (s : String) : String :=
  String.mk (((s.toList.dropWhile pyIsSpace).reverse.dropWhile pyIsSpace).reverse)

/-- The bareword branch of `_read_array`: `true` / `false` / `null`
(case-insensitively) become literals, anything else stays a raw
string. -/
def barewordValue (value : String) : Value :=
  let lower := String.mk (value.toList.map Char.toLower)
  if lower == "true" then .bool true
  else if lower == "false" then .bool false
  else if lower == "null" then .null
  else .str value

/-- The end of one `_read_array` loop iteration: skip whitespace, then
step over a `,` when one is present. -/
def arrayStepAdvance (rest₃ : List Char) (pos₃ : Nat) : List Char × Nat :=
  match skipWs rest₃ pos₃ with
  | ([], pos₄) => ([], pos₄)
  | (c :: rest₄, pos₄) =>
    if c == ',' then (rest₄, pos₄ + 1) else (c :: rest₄, pos₄)

/-- The loop of `_read_array`, entered just past the `[`.  Each
iteration: if the input is exhausted the collected values are returned
(an unterminated array is accepted); otherwise skip whitespace — where
running off the end raises the bare `IndexError` of
`self.expression[self.position]` — then read `]` or one element
(string, number, or bareword up to `,`/`]`), then `arrayStepAdvance`.
The fuel is structural bookkeeping; every iteration consumes at least
one character, and the entry points pass enough fuel (proved below,
not assumed). -/
def readArray (s : List Char) (fuel : Nat) (rest : List Char) (pos : Nat)
    (acc : List Value) : Option (Except TokErr (List Value × List Char × Nat)) :=
  match fuel with
  | 0 => none
  | fuel + 1 =>
    if rest.isEmpty then some (.ok (acc, rest, pos))
    else
      match skipWs rest pos with
      | (rest₁, pos₁) =>
        match rest₁ with
        | [] => some (.error .indexError)
        | c :: rest₂ =>
          if c == ']' then some (.ok (acc, rest₂, pos₁ + 1))
          else if c == '"' || c == '\'' then
            match readStringBody rest₂ c (pos₁ + 1) with
            | (v, rest₃, pos₃) =>
              match arrayStepAdvance rest₃ pos₃ with
              | (rest₄, pos₄) =>
                readArray s fuel rest₄ pos₄ (acc ++ [.str (String.mk v)])
          else if pyIsDigit c || c == '-' then
            match readNumber (c :: rest₂) pos₁ with
            | .error e => some (.error e)
            | .ok (v, rest₃, pos₃) =>
              match arrayStepAdvance rest₃ pos₃ with
              | (rest₄, pos₄) => readArray s fuel rest₄ pos₄ (acc ++ [v])
          else
            let raw := (c :: rest₂).takeWhile (fun ch => ch != ',' && ch != ']')
            let rest₃ := (c :: rest₂).drop raw.length
            let pos₃ := pos₁ + raw.length
            let v := barewordValue (pyStrip (String.mk raw))
            match arrayStepAdvance rest₃ pos₃ with
            | (rest₄, pos₄) => readArray s fuel rest₄ pos₄ (acc ++ [v])

/-- The scan loop of `ExpressionTokenizer.tokenize`, with the branch
order of the source: parentheses; case-insensitive `AND`/`OR` whole
words; operators; string, array, number, boolean and null literals;
field names; otherwise the positioned unexpected-character error.  The
fuel is structural bookkeeping; every iteration consumes at least one
character, and `tokenize` passes enough fuel (proved below, not
assumed). -/
def tokenizeAux (s : List Char) (fuel : Nat) (rest : List Char) (pos : Nat)
    (acc : List Token) : Option (Except TokErr (List Token)) :=
  match fuel with
  | 0 => none
  | fuel + 1 =>
    if rest.isEmpty then some (.ok (acc ++ [⟨.eof, .null, pos⟩]))
    else
      match skipWs rest pos with
      | (rest₁, pos₁) =>
        match rest₁ with
        | [] => some (.ok (acc ++ [⟨.eof, .null, pos₁⟩]))
        | c :: rest₂ =>
          if c == '(' then
            tokenizeAux s fuel rest₂ (pos₁ + 1) (acc ++ [⟨.lparen, .str "(", pos₁⟩])
          else if c == ')' then
            tokenizeAux s fuel rest₂ (pos₁ + 1) (acc ++ [⟨.rparen, .str ")", pos₁⟩])
          else
            let word := peekWord (c :: rest₂)
            let wordUp := String.mk (word.map Char.toUpper)
            if wordUp == "AND" then
              tokenizeAux s fuel ((c :: rest₂).drop 3) (pos₁ + 3)
                (acc ++ [⟨.and, .str "AND", pos₁⟩])
            else if wordUp == "OR" then
              tokenizeAux s fuel ((c :: rest₂).drop 2) (pos₁ + 2)
                (acc ++ [⟨.or, .str "OR", pos₁⟩])
            else
              match tryReadOperator s (c :: rest₂) pos₁ with
              | .error e => some (.error e)
              | .ok (some (op, rest₃, pos₃)) =>
                tokenizeAux s fuel rest₃ pos₃
                  (acc ++ [⟨.operator, .str op, pos₃ - op.length⟩])
              | .ok none =>
                if c == '"' || c == '\'' then
                  match readStringBody rest₂ c (pos₁ + 1) with
                  | (v, rest₃, pos₃) =>
                    tokenizeAux s fuel rest₃ pos₃
                      (acc ++ [⟨.value, .str (String.mk v), pos₃⟩])
                else if c == '[' then
                  match readArray s (rest₂.length + 1) rest₂ (pos₁ + 1) [] with
                  | none => none
                  | some (.error e) => some (.error e)
                  | some (.ok (vs, rest₃, pos₃)) =>
                    tokenizeAux s fuel rest₃ pos₃
                      (acc ++ [⟨.value, .list vs, pos₃⟩])
                else if pyIsDigit c || c == '-' then
                  match readNumber (c :: rest₂) pos₁ with
                  | .error e => some (.error e)
                  | .ok (v, rest₃, pos₃) =>
                    tokenizeAux s fuel rest₃ pos₃
                      (acc ++ [⟨.value, v, pos₃⟩])
                else
                  let wordLow := String.mk (word.map Char.toLower)
                  if wordLow == "true" || wordLow == "false" then
                    tokenizeAux s fuel ((c :: rest₂).drop word.length)
                      (pos₁ + word.length)
                      (acc ++ [⟨.value, .bool (wordLow == "true"), pos₁⟩])
                  else if wordLow == "null" then
                    tokenizeAux s fuel ((c :: rest₂).drop word.length)
                      (pos₁ + word.length)
                      (acc ++ [⟨.value, .null, pos₁⟩])
                  else
                    if word.isEmpty then
                      some (.error (.unexpectedChar c pos₁ (ctxAt s pos₁)))
                    else
                      tokenizeAux s fuel ((c :: rest₂).drop word.length)
                        (pos₁ + word.length)
                        (acc ++ [⟨.field, .str (String.mk word), pos₁⟩])

/-- `tokenize(expression)`: run the scan loop from the start with fuel
`length + 1` (`none`, fuel exhaustion, is proved unreachable below). -/
def tokenize (s : String) : Option (Except TokErr (List Token)) :=
  tokenizeAux s.toList (s.toList.length + 1) s.toList 0 []

/-! ## Parser (`ExpressionParser`)

The Python parser walks the token list with an index; here the
yet-unconsumed suffix is carried instead (`_advance` is `List.tail`).
`_current_token` falls back to the last token when the index runs past
the end; since every `tokenize` result ends with an Eof token that the
parser never consumes, the suffix is never empty when reached from
`parse_expression`, and the `[]` fallback below is unreachable there.
The `while` loops of `_parse_or` / `_parse_and` become the `...Loop`
functions.  Each function takes fuel (structural bookkeeping only;
`parse_expression` passes enough for any input it can receive). -/

/-- `ValueError`s of `ExpressionParser`, each carrying the offending
token's source position. -/
inductive PErr where
  | expectedRParen (position : Nat)
  | expectedField (position : Nat)
  | expectedOperator (position : Nat)
  | expectedValueOrField (position : Nat)
  deriving DecidableEq

/-- `_current_token` on the unconsumed suffix. -/
def currentToken : List Token → Token
  | [] => ⟨.eof, .null, 0⟩
  | t :: _ => t

/-- A token value read as the string the tokenizer stored there
(field names, operators); non-string values do not occur in
field/operator tokens produced by `tokenize`. -/
def Value.asStr : Value → String
  | .str s => s
  | _ => ""

mutual

/-- `_parse_or`: parse an AND-level expression, then the OR loop. -/
def parseOr (fuel : Nat) (ts : List Token) :
    Option (Except PErr (Expr × List Token)) :=
  match fuel with
  | 0 => none
  | fuel + 1 =>
    match parseAnd fuel ts with
    | none => none
    | some (.error e) => some (.error e)
    | some (.ok (left, ts₁)) => parseOrLoop fuel left ts₁

/-- The `while current is OR` loop of `_parse_or`, left-nesting the
accumulated expression. -/
def parseOrLoop (fuel : Nat) (left : Expr) (ts : List Token) :
    Option (Except PErr (Expr × List Token)) :=
  match fuel with
  | 0 => none
  | fuel + 1 =>
    if (currentToken ts).type = TokenType.or then
      match parseAnd fuel ts.tail with
      | none => none
      | some (.error e) => some (.error e)
      | some (.ok (right, ts₁)) =>
        parseOrLoop fuel (.binop "OR" left right) ts₁
    else some (.ok (left, ts))

/-- `_parse_and`: parse a comparison, then the AND loop. -/
def parseAnd (fuel : Nat) (ts : List Token) :
    Option (Except PErr (Expr × List Token)) :=
  match fuel with
  | 0 => none
  | fuel + 1 =>
    match parseCmp fuel ts with
    | none => none
    | some (.error e) => some (.error e)
    | some (.ok (left, ts₁)) => parseAndLoop fuel left ts₁

/-- The `while current is AND` loop of `_parse_and`, left-nesting the
accumulated expression. -/
def parseAndLoop (fuel : Nat) (left : Expr) (ts : List Token) :
    Option (Except PErr (Expr × List Token)) :=
  match fuel with
  | 0 => none
  | fuel + 1 =>
    if (currentToken ts).type = TokenType.and then
      match parseCmp fuel ts.tail with
      | none => none
      | some (.error e) => some (.error e)
      | some (.ok (right, ts₁)) =>
        parseAndLoop fuel (.binop "AND" left right) ts₁
    else some (.ok (left, ts))

/-- `_parse_comparison`: a parenthesized OR-expression, or
`field operator (value | field)`; the right-hand side may be a literal
value token or a field token (field-to-field comparison). -/
def parseCmp (fuel : Nat) (ts : List Token) :
    Option (Except PErr (Expr × List Token)) :=
  match fuel with
  | 0 => none
  | fuel + 1 =>
    if (currentToken ts).type = TokenType.lparen then
      match parseOr fuel ts.tail with
      | none => none
      | some (.error e) => some (.error e)
      | some (.ok (expr, ts₁)) =>
        if (currentToken ts₁).type = TokenType.rparen then
          some (.ok (expr, ts₁.tail))
        else some (.error (.expectedRParen (currentToken ts₁).position))
    else
      let t := currentToken ts
      if t.type = TokenType.field then
        let fieldName := t.value.asStr
        let ts₁ := ts.tail
        let t₁ := currentToken ts₁
        if t₁.type = TokenType.operator then
          let op := t₁.value.asStr
          let ts₂ := ts₁.tail
          let t₂ := currentToken ts₂
          if t₂.type = TokenType.value then
            some (.ok (.cmp fieldName op (.lit t₂.value), ts₂.tail))
          else if t₂.type = TokenType.field then
            some (.ok (.cmp fieldName op (.fieldRef t₂.value.asStr), ts₂.tail))
          else some (.error (.expectedValueOrField t₂.position))
        else some (.error (.expectedOperator t₁.position))
      else some (.error (.expectedField t.position))

end

/-- Failures of `parse_expression`: a tokenizer error or a parser
error (both `ValueError` in the source); `fuelExhausted` is the
bookkeeping case, unreachable from the entry points. -/
inductive ParseFailure where
  | tokErr (e : TokErr)
  | parseErr (e : PErr)
  | fuelExhausted
  deriving DecidableEq

/-- `parse_expression`: tokenize, then parse from `_parse_or`.
`ExpressionParser.parse` returns as soon as the leading expression is
complete; remaining tokens are discarded without an Eof check. -/
def parse_expression (expression : String) : Except ParseFailure Expr :=
  match tokenize expression with
  | none => .error .fuelExhausted
  | some (.error e) => .error (.tokErr e)
  | some (.ok tokens) =>
    match parseOr (tokens.length * 3 + 3) tokens with
    | none => .error .fuelExhausted
    | some (.error e) => .error (.parseErr e)
    | some (.ok (ast, _)) => .ok ast

/-- `extract_fields_from_ast`: all field names referenced in the AST,
including the right-hand field of a field-to-field comparison.  The
source deduplicates with `list(set(fields))`, whose iteration order
Python leaves unspecified; the model deduplicates keeping first
occurrences. -/
def extract_fields_from_ast : Expr → List String
  | .cmp f _ rhs =>
    (f :: (match rhs with | .fieldRef g => [g] | .lit _ => [])).eraseDups
  | .binop _ l r =>
    (extract_fields_from_ast l ++ extract_fields_from_ast r).eraseDups

/-! ## Reason generator (`reason_generator.py`)

Deterministic string building.  `str()` / `repr()` of the modelled
values are `pyStr` / `pyRepr`; for opaque floats the literal text
stands in for Python's float formatting (no claim inspects a reason
built from a float). -/

mutual

/-- Python `repr()` of a modelled value. -/
def pyRepr : Value → String
  | .int n => toString n
  | .float lit => lit
  | .str s => "'" ++ s ++ "'"
  | .bool b => if b then "True" else "False"
  | .null => "None"
  | .list vs => "[" ++ String.intercalate ", " (pyReprList vs) ++ "]"

/-- `repr()` of each element of a list. -/
def pyReprList : List Value → List String
  | [] => []
  | v :: vs => pyRepr v :: pyReprList vs

end

/-- Python `str()` of a modelled value (`repr` except on strings). -/
def pyStr : Value → String
  | .str s => s
  | v => pyRepr v

/-- `str.lower()` (ASCII). -/
def pyLower (s : String) : String := String.mk (s.toList.map Char.toLower)

/-- `f"'{value}'"` when the value is a string, else `str(value)` — the
`v1_str`/`v2_str` formatting of
`ReasonGenerator._generate_field_comparison_fail_reason`. -/
def quoteIfStr : Value → String
  | .str s => "'" ++ s ++ "'"
  | v => pyStr v

/-- Python truthiness of the optional `compared_field` argument
(`None` and the empty string are falsy). -/
def truthyOptStr : Option String → Bool
  | none => false
  | some s => !s.isEmpty

/-- `ReasonGenerator._generate_pass_reason`. -/
def generatePassReason (field op : String) (isFieldComparison : Bool)
    (comparedField : Option String) : String :=
  if isFieldComparison && truthyOptStr comparedField then
    field ++ " " ++ op ++ " " ++ comparedField.getD "" ++ " check passed"
  else field ++ " passed " ++ op ++ " check"

/-- `ReasonGenerator._generate_field_comparison_fail_reason`
(`value1` is the actual value, `value2` the compared field's value). -/
def generateFieldComparisonFailReason (field₁ op field₂ : String)
    (value₁ value₂ : Value) : String :=
  let comparison :=
    if op == "==" then "should equal"
    else if op == "!=" then "should not equal"
    else if op == ">" then "should be greater than"
    else if op == ">=" then "should be greater than or equal to"
    else if op == "<" then "should be less than"
    else if op == "<=" then "should be less than or equal to"
    else "failed " ++ op ++ " check with"
  field₁ ++ " (" ++ quoteIfStr value₁ ++ ") " ++ comparison ++ " "
    ++ field₂ ++ " (" ++ quoteIfStr value₂ ++ ")"

/-- `ReasonGenerator._reason_for_equals_fail`; the `isinstance` chain
checks `bool` before `int`/`float` (Python's `bool` is an `int`). -/
def reasonForEqualsFail (field : String) (expected actual : Value) : String :=
  match expected with
  | .bool _ =>
    "Expected " ++ field ++ " to be " ++ pyLower (pyStr expected)
      ++ " but was " ++ pyLower (pyStr actual)
  | .str s =>
    "Expected " ++ field ++ " to be '" ++ s ++ "' but was '" ++ pyStr actual ++ "'"
  | .int _ | .float _ =>
    "Expected " ++ field ++ " to equal " ++ pyStr expected
      ++ " but was " ++ pyStr actual
  | _ =>
    "Expected " ++ field ++ " to be " ++ pyStr expected
      ++ " but was " ++ pyStr actual

/-- `ReasonGenerator._reason_for_not_equals_fail`. -/
def reasonForNotEqualsFail (field : String) (expected : Value) : String :=
  match expected with
  | .bool _ =>
    "Expected " ++ field ++ " to not be " ++ pyLower (pyStr expected) ++ " but it was"
  | .str s =>
    "Expected " ++ field ++ " to not be '" ++ s ++ "' but it was"
  | _ =>
    "Expected " ++ field ++ " to not equal " ++ pyStr expected ++ " but it did"

/-- `ReasonGenerator._reason_for_comparison_fail`.  The source re-runs
`actual <= expected` etc. here; it is only called for comparisons that
already produced a boolean, so the underlying comparison cannot raise,
and the model defaults the (unreachable) unorderable case to `false`. -/
def reasonForComparisonFail (field op : String) (expected actual : Value) : String :=
  let comparison :=
    if op == ">" then "greater than"
    else if op == ">=" then "greater than or equal to"
    else if op == "<" then "less than"
    else if op == "<=" then "less than or equal to"
    else op
  if op == ">" && (pyLe actual expected).getD false then
    field ++ " (" ++ pyStr actual ++ ") must be greater than " ++ pyStr expected
  else if op == ">=" && (pyLt actual expected).getD false then
    field ++ " (" ++ pyStr actual ++ ") must be at least " ++ pyStr expected
  else if op == "<" && (pyGe actual expected).getD false then
    field ++ " (" ++ pyStr actual ++ ") must be less than " ++ pyStr expected
  else if op == "<=" && (pyGt actual expected).getD false then
    field ++ " (" ++ pyStr actual ++ ") must be at most " ++ pyStr expected
  else
    field ++ " (" ++ pyStr actual ++ ") is not " ++ comparison ++ " " ++ pyStr expected

/-- `ReasonGenerator._reason_for_contains_fail`. -/
def reasonForContainsFail (field : String) (expected actual : Value) : String :=
  match actual with
  | .str s =>
    "Expected " ++ field ++ " to contain '" ++ pyStr expected
      ++ "' but it doesn't (actual: '" ++ s ++ "')"
  | .list _ =>
    "Expected " ++ field ++ " to contain '" ++ pyStr expected
      ++ "' but it doesn't (actual: " ++ pyStr actual ++ ")"
  | _ => "Expected " ++ field ++ " to contain '" ++ pyStr expected ++ "'"

/-- `ReasonGenerator._reason_for_not_contains_fail`. -/
def reasonForNotContainsFail (field : String) (expected actual : Value) : String :=
  match actual with
  | .str s =>
    "Expected " ++ field ++ " to not contain '" ++ pyStr expected
      ++ "' but it does (actual: '" ++ s ++ "')"
  | .list _ =>
    "Expected " ++ field ++ " to not contain '" ++ pyStr expected
      ++ "' but it does (actual: " ++ pyStr actual ++ ")"
  | _ => "Expected " ++ field ++ " to not contain '" ++ pyStr expected ++ "' but it does"

/-- The bounded rendering of an expected list in the `in`/`not_in`
failure reasons: up to 3 elements verbatim, else the first 3 plus a
count. -/
def renderExpectedList (l : List Value) : String :=
  if l.length ≤ 3 then pyStr (.list l)
  else
    "[" ++ String.intercalate ", " (pyReprList (l.take 3))
      ++ ", ... and " ++ toString (l.length - 3) ++ " more]"

/-- `ReasonGenerator._reason_for_in_fail`. -/
def reasonForInFail (field : String) (expected actual : Value) : String :=
  match expected with
  | .list l =>
    "Expected " ++ field ++ " to be one of " ++ renderExpectedList l
      ++ " but was '" ++ pyStr actual ++ "'"
  | _ =>
    "Expected " ++ field ++ " to be in " ++ pyStr expected
      ++ " but was '" ++ pyStr actual ++ "'"

/-- `ReasonGenerator._reason_for_not_in_fail`. -/
def reasonForNotInFail (field : String) (expected actual : Value) : String :=
  match expected with
  | .list l =>
    "Expected " ++ field ++ " to not be in " ++ renderExpectedList l
      ++ " but it was '" ++ pyStr actual ++ "'"
  | _ =>
    "Expected " ++ field ++ " to not be in " ++ pyStr expected
      ++ " but it was '" ++ pyStr actual ++ "'"

/-- `ReasonGenerator._generate_fail_reason`. -/
def generateFailReason (field op : String) (expected actual : Value)
    (isFieldComparison : Bool) (comparedField : Option String) : String :=
  if isFieldComparison && truthyOptStr comparedField then
    generateFieldComparisonFailReason field op (comparedField.getD "") actual expected
  else if op == "==" then reasonForEqualsFail field expected actual
  else if op == "!=" then reasonForNotEqualsFail field expected
  else if op == ">" || op == ">=" || op == "<" || op == "<=" then
    reasonForComparisonFail field op expected actual
  else if op == "contains" then reasonForContainsFail field expected actual
  else if op == "not_contains" then reasonForNotContainsFail field expected actual
  else if op == "in" then reasonForInFail field expected actual
  else if op == "not_in" then reasonForNotInFail field expected actual
  else
    field ++ " failed " ++ op ++ " check (expected: " ++ pyStr expected
      ++ ", actual: " ++ pyStr actual ++ ")"

/-- `ReasonGenerator.generate_reason`. -/
def generateReason (field op : String) (expected actual : Value) (passed : Bool)
    (isFieldComparison : Bool) (comparedField : Option String) : String :=
  if passed then generatePassReason field op isFieldComparison comparedField
  else generateFailReason field op expected actual isFieldComparison comparedField

/-- `ReasonGenerator.generate_error_reason`. -/
def generateErrorReason (field errorMessage : String) : String :=
  field ++ ": " ++ errorMessage

/-! ## Domain models and the evaluation service
(`models.py`, `application/services.py`)

Rule identity (a UUID passed through unchanged) is omitted from
`EvaluationResult`; no claim mentions it. -/

/-- `OperatorType` (`models.py`). -/
inductive OperatorType where
  | equals
  | notEquals
  | greaterThan
  | greaterThanOrEqual
  | lessThan
  | lessThanOrEqual
  | contains
  | notContains
  | isIn
  | notIn
  deriving DecidableEq

/-- `OperatorType.value`: the operator's string form. -/
def OperatorType.value : OperatorType → String
  | .equals => "=="
  | .notEquals => "!="
  | .greaterThan => ">"
  | .greaterThanOrEqual => ">="
  | .lessThan => "<"
  | .lessThanOrEqual => "<="
  | .contains => "contains"
  | .notContains => "not_contains"
  | .isIn => "in"
  | .notIn => "not_in"

/-- `Predicate` (`models.py`). -/
structure Predicate where
  field : String
  operator : OperatorType
  value : Value
  deriving DecidableEq

/-- `RuleEffect` (`models.py`). -/
inductive RuleEffect where
  | pass
  | fail
  deriving DecidableEq

/-- One `predicate_results` dictionary of an `EvaluationResult`.  The
dictionaries built by the service have different key sets depending on
the branch; an absent key is `none`. -/
structure PredResult where
  field : Option String := none
  operator : Option String := none
  expected : Option Value := none
  actual : Option Value := none
  passed : Bool := false
  reason : Option String := none
  error : Option String := none
  expression : Option String := none
  deriving DecidableEq

/-- `EvaluationResult` (`models.py`), without the opaque rule id. -/
structure EvaluationResult where
  ruleName : String
  result : RuleEffect
  reason : String
  predicateResults : List PredResult
  deriving DecidableEq

/-- `EvaluationService._evaluate_predicate`: look up the field (raising
`MissingField` when absent) and dispatch on the enum operator; the
`except TypeError` handler maps unorderable comparisons to
`TypeMismatch` exactly as in the expression evaluator.  The
unsupported-operator branch of the source is unreachable: the enum is
exhaustive. -/
def evaluatePredicate (predicate : Predicate) (payload : Payload) :
    Except EvalErr Bool :=
  match payload.find predicate.field with
  | none => .error (.missingField predicate.field)
  | some actual =>
    let expected := predicate.value
    match predicate.operator with
    | .equals => .ok (pyEq actual expected)
    | .notEquals => .ok (!pyEq actual expected)
    | .greaterThan =>
      match pyGt actual expected with
      | some b => .ok b
      | none =>
        .error (.typeMismatch predicate.field expected.typeName actual.typeName)
    | .greaterThanOrEqual =>
      match pyGe actual expected with
      | some b => .ok b
      | none =>
        .error (.typeMismatch predicate.field expected.typeName actual.typeName)
    | .lessThan =>
      match pyLt actual expected with
      | some b => .ok b
      | none =>
        .error (.typeMismatch predicate.field expected.typeName actual.typeName)
    | .lessThanOrEqual =>
      match pyLe actual expected with
      | some b => .ok b
      | none =>
        .error (.typeMismatch predicate.field expected.typeName actual.typeName)
    | .contains =>
      match actual with
      | .str s =>
        match expected with
        | .str t => .ok (strContainsSub s t)
        | _ =>
          .error (.typeMismatch predicate.field expected.typeName actual.typeName)
      | .list l => .ok (pyInList expected l)
      | _ => .error (.typeMismatch predicate.field "string or list" actual.typeName)
    | .notContains =>
      match actual with
      | .str s =>
        match expected with
        | .str t => .ok (!strContainsSub s t)
        | _ =>
          .error (.typeMismatch predicate.field expected.typeName actual.typeName)
      | .list l => .ok (!pyInList expected l)
      | _ => .error (.typeMismatch predicate.field "string or list" actual.typeName)
    | .isIn =>
      match expected with
      | .list l => .ok (pyInList actual l)
      | _ =>
        .error (.typeMismatch predicate.field "expected value to be a list" expected.typeName)
    | .notIn =>
      match expected with
      | .list l => .ok (!pyInList actual l)
      | _ =>
        .error (.typeMismatch predicate.field "expected value to be a list" expected.typeName)

/-- The state threaded through the predicate loop of
`_evaluate_predicate_rule`. -/
structure PredLoopState where
  predicateResults : List PredResult
  passedCount : Nat
  failedCount : Nat
  failedReasons : List String
  deriving DecidableEq

/-- One iteration of the predicate loop of `_evaluate_predicate_rule`:
a successful evaluation appends a full trace entry and bumps a counter;
a `MissingField`/`TypeMismatch` is caught here, appends a failed entry
carrying the error message, and counts as failed. -/
def evalPredicateStep (payload : Payload) (st : PredLoopState)
    (predicate : Predicate) : PredLoopState :=
  match evaluatePredicate predicate payload with
  | .ok passed =>
    let actual := payload.getd predicate.field
    let reason := generateReason predicate.field predicate.operator.value
      predicate.value actual passed false none
    let entry : PredResult :=
      { field := some predicate.field, operator := some predicate.operator.value,
        expected := some predicate.value, actual := some actual,
        passed := passed, reason := some reason }
    { predicateResults := st.predicateResults ++ [entry],
      passedCount := if passed then st.passedCount + 1 else st.passedCount,
      failedCount := if passed then st.failedCount else st.failedCount + 1,
      failedReasons := if passed then st.failedReasons
                       else st.failedReasons ++ [reason] }
  | .error e =>
    let errorReason := generateErrorReason predicate.field e.pyMessage
    let entry : PredResult :=
      { field := some predicate.field, operator := some predicate.operator.value,
        expected := some predicate.value, error := some e.pyMessage,
        passed := false, reason := some errorReason }
    { predicateResults := st.predicateResults ++ [entry],
      passedCount := st.passedCount,
      failedCount := st.failedCount + 1,
      failedReasons := st.failedReasons ++ [errorReason] }

/-- `EvaluationService._evaluate_predicate_rule`: evaluate every
predicate of the list in order (the loop has no early exit), then
combine — `"AND"`: the rule passes iff no predicate failed; anything
else (`"OR"` after validation): the rule passes iff at least one
predicate passed.  The single-failure and multi-failure reason formats
of the source coincide with a `"; "` join. -/
def evaluatePredicateRule (ruleName : String) (predicates : List Predicate)
    (logicalOperator : String) (payload : Payload) : EvaluationResult :=
  let st := predicates.foldl (evalPredicateStep payload) ⟨[], 0, 0, []⟩
  let rulePassed :=
    if logicalOperator == "AND" then st.failedCount == 0
    else st.passedCount > 0
  let resultEffect := if rulePassed then RuleEffect.pass else RuleEffect.fail
  let resultReason :=
    if rulePassed then ruleName ++ " passed all conditions"
    else if !st.failedReasons.isEmpty then
      String.intercalate "; " st.failedReasons
    else "Rule " ++ ruleName ++ " failed"
  { ruleName := ruleName, result := resultEffect, reason := resultReason,
    predicateResults := st.predicateResults }

/-- Failures that can escape `_evaluate_expression_rule`: the
`ValueError`s of `parse_expression` (not caught by its `except`
clause), and an uncaught `KeyError` (unreachable). -/
inductive RuleEvalFailure where
  | parse (e : ParseFailure)
  | uncaught (e : EvalErr)
  deriving DecidableEq

/-- The reason attached to one comparison trace entry by
`_evaluate_expression_rule`: the error template when the entry carries
an error, the operator-specific template otherwise. -/
def expressionEntryReason (cr : TraceEntry) : String :=
  match cr.error with
  | some msg => generateErrorReason cr.field msg
  | none =>
    generateReason cr.field cr.operator cr.expected cr.actual cr.passed
      cr.isFieldComparison cr.comparedField

/-- One iteration of the per-comparison loop of
`_evaluate_expression_rule`, building `predicate_results` and
`failed_reasons`. -/
def expressionEntryStep (st : List PredResult × List String) (cr : TraceEntry) :
    List PredResult × List String :=
  let reason := expressionEntryReason cr
  let entry : PredResult :=
    { field := some cr.field, operator := some cr.operator,
      expected := some cr.expected, actual := some cr.actual,
      passed := cr.passed, reason := some reason, error := cr.error }
  (st.1 ++ [entry], if !cr.passed then st.2 ++ [reason] else st.2)

/-- `EvaluationService._evaluate_expression_rule`: parse the rule's
expression; collect every field name of the AST and fail wholesale (one
error entry, no comparison evaluated) when any is missing from the
payload; otherwise run the tracing evaluator and render one
reason-bearing entry per trace entry.  The `except` clause of the
source that would downgrade a propagated domain exception is
unreachable: `evaluate_expression_detailed` already catches them. -/
def evaluateExpressionRule (ruleName expression : String) (payload : Payload) :
    Except RuleEvalFailure EvaluationResult :=
  match parse_expression expression with
  | .error e => .error (.parse e)
  | .ok ast =>
    let requiredFields := extract_fields_from_ast ast
    let missingFields := requiredFields.filter (fun f => (payload.find f).isNone)
    if !missingFields.isEmpty then
      let msg := "Missing required fields: " ++ String.intercalate ", " missingFields
      .ok { ruleName := ruleName, result := .fail, reason := msg,
            predicateResults := [{ error := some msg, passed := false }] }
    else
      match evaluateExpressionDetailed ast payload with
      | .error e => .error (.uncaught e)
      | .ok (passed, comparisonResults) =>
        match comparisonResults.foldl expressionEntryStep ([], []) with
        | (predicateResults, failedReasons) =>
          let resultEffect := if passed then RuleEffect.pass else RuleEffect.fail
          let resultReason :=
            if passed then ruleName ++ " passed all conditions"
            else if !failedReasons.isEmpty then
              String.intercalate "; " failedReasons
            else "Rule " ++ ruleName ++ " failed"
          .ok { ruleName := ruleName, result := resultEffect,
                reason := resultReason, predicateResults := predicateResults }

/-! ## Definitions used by the theorem statements -/

/-- The comparison leaves of an AST, in left-to-right order. -/
def Expr.leaves : Expr → List (String × String × Rhs)
  | .cmp f op rhs => [(f, op, rhs)]
  | .binop _ l r => l.leaves ++ r.leaves

/-- The result the tracking evaluator produces for one comparison
leaf. -/
def leafResult (payload : Payload) (l : String × String × Rhs) :
    Except EvalErr Bool :=
  (evalCmpTracking payload l.1 l.2.1 l.2.2).1

/-- The trace entry the tracking evaluator appends for one comparison
leaf (`none` only for exceptions its handler does not catch). -/
def leafEntry (payload : Payload) (l : String × String × Rhs) :
    Option TraceEntry :=
  (evalCmpTracking payload l.1 l.2.1 l.2.2).2

/-- Every binary operator of the AST is `AND` or `OR` — true of every
AST the parser produces. -/
def Expr.opsValid : Expr → Bool
  | .cmp _ _ _ => true
  | .binop op l r => (op == "AND" || op == "OR") && l.opsValid && r.opsValid

/-- The resolved right-hand operand of a comparison against a
payload. -/
def resolveRhs (payload : Payload) : Rhs → Option Value
  | .lit v => some v
  | .fieldRef g => payload.find g

/-- Is the value a Python list? -/
def Value.isList : Value → Bool
  | .list _ => true
  | _ => false

/-- The verdict one predicate contributes in `_evaluate_predicate_rule`:
its boolean when it evaluates, `false` (failed) when it raises. -/
def predOutcome (payload : Payload) (p : Predicate) : Bool :=
  match evaluatePredicate p payload with
  | .ok b => b
  | .error _ => false

/-- The `predicate_results` entry `_evaluate_predicate_rule` appends
for one predicate. -/
def predEntry (payload : Payload) (p : Predicate) : PredResult :=
  match evaluatePredicate p payload with
  | .ok passed =>
    let actual := payload.getd p.field
    let reason := generateReason p.field p.operator.value p.value actual passed
      false none
    { field := some p.field, operator := some p.operator.value,
      expected := some p.value, actual := some actual,
      passed := passed, reason := some reason }
  | .error e =>
    let errorReason := generateErrorReason p.field e.pyMessage
    { field := some p.field, operator := some p.operator.value,
      expected := some p.value, error := some e.pyMessage,
      passed := false, reason := some errorReason }

/-- The token triple of one comparison `field op literal` (positions
are irrelevant to parsing success and set to 0). -/
def cmpToks (c : String × String × Value) : List Token :=
  [⟨.field, .str c.1, 0⟩, ⟨.operator, .str c.2.1, 0⟩, ⟨.value, c.2.2, 0⟩]

/-- The comparison node for such a triple. -/
def mkCmpNode (c : String × String × Value) : Expr :=
  .cmp c.1 c.2.1 (.lit c.2.2)

/-- An `AND` token. -/
def andTok : Token := ⟨.and, .str "AND", 0⟩

/-- An `OR` token. -/
def orTok : Token := ⟨.or, .str "OR", 0⟩

/-- An `EOF` token. -/
def eofTok : Token := ⟨.eof, .null, 0⟩

/-- The token stream of a flat chain
`c₀ sep c₁ sep … sep cₙ` of comparisons. -/
def chainToks (sep : Token) (c₀ : String × String × Value)
    (cs : List (String × String × Value)) : List Token :=
  cmpToks c₀ ++ cs.flatMap (fun c => sep :: cmpToks c)

/-- The left-nested tree `op(…op(op(c₀,c₁),c₂)…,cₙ)`. -/
def leftNested (op : String) (c₀ : String × String × Value)
    (cs : List (String × String × Value)) : Expr :=
  cs.foldl (fun acc c => .binop op acc (mkCmpNode c)) (mkCmpNode c₀)

/-! ## Supporting lemmas -/

/-- A word-shaped operator accepted by the candidate loop of
`_try_read_operator` is never immediately followed by an identifier
character. -/
theorem tryReadOpFrom_boundary (ops : List String) (rest : List Char) (pos : Nat)
    (op : String) (rest' : List Char) (pos' : Nat)
    (h : tryReadOpFrom ops rest pos = some (op, rest', pos'))
    (hw : op ∈ wordOps) :
    ∀ c, rest'.head? = some c → isIdentChar c = false := by
  induction ops with
  | nil => simp [tryReadOpFrom] at h
  | cons op₀ ops ih =>
    rw [tryReadOpFrom] at h
    split at h
    · rename_i hcond
      simp only [Option.some.injEq, Prod.mk.injEq] at h
      obtain ⟨rfl, rfl, rfl⟩ := h
      intro c hc
      rw [Bool.and_eq_true, Bool.not_eq_true', Bool.and_eq_false_iff] at hcond
      rcases hcond.2 with hdec | hmatch
      · rw [decide_eq_false_iff_not] at hdec
        exact absurd hw hdec
      · rw [hc] at hmatch
        exact hmatch
    · exact ih h

/-! ## Claim theorems -/

/-- C4: the tokenizer matches the word-shaped operators (`in`,
`contains`, `not_in`, `not_contains`) only when the operator text is
not immediately followed by an identifier character; consequently
`tokenize("income > 100000")` and `tokenize("container > 10")` produce
Field tokens `"income"` / `"container"` followed by an Operator token
and a Value token, never an `in`/`contains` Operator token at the start
of those words. -/
theorem claim_C4_word_operator_boundary :
    (∀ (s rest : List Char) (pos : Nat) (op : String) (rest' : List Char)
        (pos' : Nat),
      tryReadOperator s rest pos = .ok (some (op, rest', pos')) →
      op ∈ wordOps →
      ∀ c, rest'.head? = some c → isIdentChar c = false)
    ∧ tokenize "income > 100000" = some (.ok
        [⟨.field, .str "income", 0⟩, ⟨.operator, .str ">", 7⟩,
         ⟨.value, .int 100000, 15⟩, ⟨.eof, .null, 15⟩])
    ∧ tokenize "container > 10" = some (.ok
        [⟨.field, .str "container", 0⟩, ⟨.operator, .str ">", 10⟩,
         ⟨.value, .int 10, 14⟩, ⟨.eof, .null, 14⟩]) := by
  refine ⟨?_, by decide, by decide⟩
  intro s rest pos op rest' pos' h hw c hc
  rw [tryReadOperator.eq_def] at h
  split at h
  · rename_i r hf
    simp only [Except.ok.injEq, Option.some.injEq] at h
    subst h
    exact tryReadOpFrom_boundary opCandidates rest pos op rest' pos' hf hw c hc
  · rcases rest with _ | ⟨c₀, rest₀⟩
    · simp at h
    · dsimp only at h
      split_ifs at h
      · cases h
        simp [wordOps] at hw
      · cases h
        simp [wordOps] at hw
      · exact absurd h (by simp)

/-- Witness for C4: the word operator `in` matched in `"in 5"` is
followed by a space, which is not an identifier character. -/
theorem claim_C4_word_operator_boundary_witness : isIdentChar ' ' = false :=
  claim_C4_word_operator_boundary.1 [] (String.toList "in 5") 0 "in"
    (String.toList " 5") 2 (by decide) (by decide) ' ' (by decide)

/-- C10: `ExpressionParser.parse` returns as soon as the leading
expression is complete, without checking that the next token is Eof:
on `"a == 1 b == 2"` the token stream continues past the first
comparison, yet `parse_expression` succeeds with the AST of only
`a == 1` (the parser leaves the trailing tokens unconsumed, as the
`parseOr` conjunct shows), and on `"age >= 18)"` the unmatched `)` is
silently discarded. -/
theorem claim_C10_trailing_tokens_ignored :
    parse_expression "a == 1 b == 2" = .ok (.cmp "a" "==" (.lit (.int 1)))
    ∧ tokenize "a == 1 b == 2" = some (.ok
        [⟨.field, .str "a", 0⟩, ⟨.operator, .str "==", 2⟩, ⟨.value, .int 1, 6⟩,
         ⟨.field, .str "b", 7⟩, ⟨.operator, .str "==", 9⟩, ⟨.value, .int 2, 13⟩,
         ⟨.eof, .null, 13⟩])
    ∧ parseOr (7 * 3 + 3)
        [⟨.field, .str "a", 0⟩, ⟨.operator, .str "==", 2⟩, ⟨.value, .int 1, 6⟩,
         ⟨.field, .str "b", 7⟩, ⟨.operator, .str "==", 9⟩, ⟨.value, .int 2, 13⟩,
         ⟨.eof, .null, 13⟩]
      = some (.ok (.cmp "a" "==" (.lit (.int 1)),
        [⟨.field, .str "b", 7⟩, ⟨.operator, .str "==", 9⟩, ⟨.value, .int 2, 13⟩,
         ⟨.eof, .null, 13⟩]))
    ∧ parse_expression "age >= 18)" = .ok (.cmp "age" ">=" (.lit (.int 18))) := by
  exact ⟨by decide, by decide, by decide, by decide⟩

/-- The shared operator dispatch on `in`/`not_in` with a non-list
expected value: always the `expected value to be a list` type
mismatch. -/
theorem comparisonOpPlain_in_nonlist (f op : String) (actual expected : Value)
    (hop : op = "in" ∨ op = "not_in") (hlist : expected.isList = false) :
    comparisonOpPlain f op actual expected
      = .error (.typeMismatch f "expected value to be a list" expected.typeName) := by
  rcases hop with rfl | rfl <;>
    cases expected <;>
      simp_all [comparisonOpPlain, Value.isList]

/-- C8: operator type constraints raise TypeMismatch — evaluating the
AST of `"age>18"` against `{age: "twenty"}` raises TypeMismatch for
field `age` (an `int`/`str` ordering is a Python `TypeError`, mapped by
the evaluator); and every `in`/`not_in` comparison whose resolved
right-hand value is not a list evaluates to a TypeMismatch error, never
a boolean. -/
theorem claim_C8_type_mismatch_errors :
    parse_expression "age>18" = .ok (.cmp "age" ">" (.lit (.int 18)))
    ∧ evaluateExpr [("age", .str "twenty")] (.cmp "age" ">" (.lit (.int 18)))
        = .error (.typeMismatch "age" "int" "str")
    ∧ (∀ (payload : Payload) (f op : String) (rhs : Rhs) (actual expected : Value),
        (op = "in" ∨ op = "not_in") →
        payload.find f = some actual →
        resolveRhs payload rhs = some expected →
        expected.isList = false →
        evaluateComparison payload f op rhs
          = .error (.typeMismatch f "expected value to be a list" expected.typeName)) := by
  refine ⟨by decide, by decide, ?_⟩
  intro payload f op rhs actual expected hop hfind hres hlist
  rcases rhs with v | g
  · simp only [resolveRhs, Option.some.injEq] at hres
    subst hres
    simp only [evaluateExpr, evaluateComparison, hfind]
    exact comparisonOpPlain_in_nonlist f op actual v hop hlist
  · simp only [resolveRhs] at hres
    simp only [evaluateExpr, evaluateComparison, hfind, hres]
    exact comparisonOpPlain_in_nonlist f op actual expected hop hlist

/-- Witness for C8: `x in 5` with `{x: 1}` — the expected value `5` is
not a list, so evaluation yields the TypeMismatch, not a boolean. -/
theorem claim_C8_type_mismatch_errors_witness :
    evaluateComparison [("x", .int 1)] "x" "in" (.lit (.int 5))
      = .error (.typeMismatch "x" "expected value to be a list" "int") :=
  claim_C8_type_mismatch_errors.2.2 [("x", .int 1)] "x" "in" (.lit (.int 5))
    (.int 1) (.int 5) (Or.inl rfl) (by decide) (by decide) (by decide)

/-- C5: for an expression rule, the rule-level evaluator collects all
field names of the AST before evaluating anything; when any of them is
absent from the payload, the result is FAIL with the
`Missing required fields` reason naming the missing fields, and the
trace is a single error entry — no comparison is evaluated. -/
theorem claim_C5_missing_fields_short_circuit :
    ∀ (ruleName expression : String) (payload : Payload) (ast : Expr),
      parse_expression expression = .ok ast →
      (∃ f ∈ extract_fields_from_ast ast, payload.find f = none) →
      evaluateExpressionRule ruleName expression payload = .ok
        { ruleName := ruleName, result := .fail,
          reason := "Missing required fields: " ++ String.intercalate ", "
            ((extract_fields_from_ast ast).filter
              (fun f => (payload.find f).isNone)),
          predicateResults := [{
            passed := false,
            error := some ("Missing required fields: " ++ String.intercalate ", "
              ((extract_fields_from_ast ast).filter
                (fun f => (payload.find f).isNone))) }] } := by
  intro ruleName expression payload ast hparse hmiss
  obtain ⟨f, hf, hnone⟩ := hmiss
  have hmem : f ∈ (extract_fields_from_ast ast).filter
      (fun g => (payload.find g).isNone) :=
    List.mem_filter.mpr ⟨hf, by simp [hnone]⟩
  have hcond : ((extract_fields_from_ast ast).filter
      (fun g => (payload.find g).isNone)).isEmpty = false := by
    cases hfe : (extract_fields_from_ast ast).filter
        (fun g => (payload.find g).isNone) with
    | nil => rw [hfe] at hmem; exact absurd hmem (by simp)
    | cons a l => rfl
  simp only [evaluateExpressionRule, hparse, hcond, Bool.not_false, if_true]

/-- Witness for C5: a rule whose expression references `missing_one`
evaluated against the empty payload. -/
theorem claim_C5_missing_fields_short_circuit_witness :
    evaluateExpressionRule "r" "missing_one > 2" [] = .ok
      { ruleName := "r", result := .fail,
        reason := "Missing required fields: missing_one",
        predicateResults := [{
          passed := false,
          error := some "Missing required fields: missing_one" }] } := by
  have h := claim_C5_missing_fields_short_circuit "r" "missing_one > 2" []
    (.cmp "missing_one" ">" (.lit (.int 2))) (by decide)
    ⟨"missing_one", by decide, rfl⟩
  exact h

/-- One predicate-loop step appends exactly the entry `predEntry`. -/
theorem evalPredicateStep_results (payload : Payload) (st : PredLoopState)
    (p : Predicate) :
    (evalPredicateStep payload st p).predicateResults
      = st.predicateResults ++ [predEntry payload p] := by
  cases h : evaluatePredicate p payload <;>
    simp [evalPredicateStep, predEntry, h]

/-- One predicate-loop step bumps `passed_count` exactly when the
predicate's outcome is a pass. -/
theorem evalPredicateStep_passed (payload : Payload) (st : PredLoopState)
    (p : Predicate) :
    (evalPredicateStep payload st p).passedCount
      = st.passedCount + (if predOutcome payload p then 1 else 0) := by
  cases h : evaluatePredicate p payload with
  | ok b => cases b <;> simp [evalPredicateStep, predOutcome, h]
  | error e => simp [evalPredicateStep, predOutcome, h]

/-- One predicate-loop step bumps `failed_count` exactly when the
predicate's outcome is a failure (including a caught error). -/
theorem evalPredicateStep_failed (payload : Payload) (st : PredLoopState)
    (p : Predicate) :
    (evalPredicateStep payload st p).failedCount
      = st.failedCount + (if predOutcome payload p then 0 else 1) := by
  cases h : evaluatePredicate p payload with
  | ok b => cases b <;> simp [evalPredicateStep, predOutcome, h]
  | error e => simp [evalPredicateStep, predOutcome, h]

/-- The predicate loop produces one entry per predicate, in order. -/
theorem predFold_results (payload : Payload) :
    ∀ (preds : List Predicate) (st : PredLoopState),
      (preds.foldl (evalPredicateStep payload) st).predicateResults
        = st.predicateResults ++ preds.map (predEntry payload) := by
  intro preds
  induction preds with
  | nil => intro st; simp
  | cons p preds ih =>
    intro st
    rw [List.foldl_cons, List.map_cons, ih (evalPredicateStep payload st p),
      evalPredicateStep_results]
    simp

/-- The predicate loop counts passes. -/
theorem predFold_passed (payload : Payload) :
    ∀ (preds : List Predicate) (st : PredLoopState),
      (preds.foldl (evalPredicateStep payload) st).passedCount
        = st.passedCount + preds.countP (fun p => predOutcome payload p) := by
  intro preds
  induction preds with
  | nil => intro st; simp
  | cons p preds ih =>
    intro st
    rw [List.foldl_cons, ih (evalPredicateStep payload st p),
      evalPredicateStep_passed, List.countP_cons]
    by_cases h : predOutcome payload p = true <;>
      simp [h, Nat.add_assoc, Nat.add_comm, Nat.add_left_comm]

/-- The predicate loop counts failures. -/
theorem predFold_failed (payload : Payload) :
    ∀ (preds : List Predicate) (st : PredLoopState),
      (preds.foldl (evalPredicateStep payload) st).failedCount
        = st.failedCount + preds.countP (fun p => !predOutcome payload p) := by
  intro preds
  induction preds with
  | nil => intro st; simp
  | cons p preds ih =>
    intro st
    rw [List.foldl_cons, ih (evalPredicateStep payload st p),
      evalPredicateStep_failed, List.countP_cons]
    by_cases h : predOutcome payload p = true <;>
      simp [h, Nat.add_assoc, Nat.add_comm, Nat.add_left_comm]

/-- C6: in a predicate rule every predicate of the list is evaluated
(one trace entry per predicate — no short-circuiting), and the verdict
is: under `"AND"`, pass iff zero predicates failed; under `"OR"`, pass
iff at least one predicate passed.  In particular the rule with
predicates `[age>=18 (failing), country=="USA" (passing)]` is PASS
under `"OR"` and FAIL under `"AND"`. -/
theorem claim_C6_predicate_rule_combination :
    (∀ (ruleName : String) (preds : List Predicate) (lop : String)
        (payload : Payload),
      (evaluatePredicateRule ruleName preds lop payload).predicateResults.length
        = preds.length)
    ∧ (∀ (ruleName : String) (preds : List Predicate) (payload : Payload),
        (evaluatePredicateRule ruleName preds "AND" payload).result = .pass
          ↔ preds.countP (fun p => !predOutcome payload p) = 0)
    ∧ (∀ (ruleName : String) (preds : List Predicate) (payload : Payload),
        (evaluatePredicateRule ruleName preds "OR" payload).result = .pass
          ↔ 0 < preds.countP (fun p => predOutcome payload p))
    ∧ (evaluatePredicateRule "r"
        [⟨"age", .greaterThanOrEqual, .int 18⟩, ⟨"country", .equals, .str "USA"⟩]
        "OR" [("age", .int 16), ("country", .str "USA")]).result = .pass
    ∧ (evaluatePredicateRule "r"
        [⟨"age", .greaterThanOrEqual, .int 18⟩, ⟨"country", .equals, .str "USA"⟩]
        "AND" [("age", .int 16), ("country", .str "USA")]).result = .fail := by
  refine ⟨?_, ?_, ?_, by decide, by decide⟩
  · intro ruleName preds lop payload
    simp [evaluatePredicateRule, predFold_results]
  · intro ruleName preds payload
    have h := predFold_failed payload preds ⟨[], 0, 0, []⟩
    simp only [evaluatePredicateRule, h]
    by_cases hc : preds.countP (fun p => !predOutcome payload p) = 0 <;>
      simp [hc]
  · intro ruleName preds payload
    have h := predFold_passed payload preds ⟨[], 0, 0, []⟩
    simp only [evaluatePredicateRule, h]
    by_cases hc : 0 < preds.countP (fun p => predOutcome payload p)
    · simp [hc, Nat.pos_iff_ne_zero.mp hc]
    · simp [hc]

/-- Witness for C6: the AND equivalence instantiated at the concrete
failing/passing predicate pair. -/
theorem claim_C6_predicate_rule_combination_witness :
    (evaluatePredicateRule "r"
      [⟨"age", .greaterThanOrEqual, .int 18⟩, ⟨"country", .equals, .str "USA"⟩]
      "AND" [("age", .int 16), ("country", .str "USA")]).result = .pass
      ↔ ([⟨"age", .greaterThanOrEqual, .int 18⟩,
          ⟨"country", .equals, .str "USA"⟩] : List Predicate).countP
            (fun p => !predOutcome [("age", .int 16), ("country", .str "USA")] p)
          = 0 :=
  claim_C6_predicate_rule_combination.2.1 "r"
    [⟨"age", .greaterThanOrEqual, .int 18⟩, ⟨"country", .equals, .str "USA"⟩]
    [("age", .int 16), ("country", .str "USA")]

/-- C7: a MissingField/TypeMismatch raised while evaluating one
predicate is contained at that predicate — the rule's trace is always
one entry per predicate in order (so every remaining predicate is still
evaluated and the rule never aborts), the erroring predicate's entry
has `passed = false` and carries the exception message in its `error`
field, and the predicate counts as failed for the AND/OR
combination. -/
theorem claim_C7_predicate_error_containment :
    (∀ (ruleName : String) (preds : List Predicate) (lop : String)
        (payload : Payload),
      (evaluatePredicateRule ruleName preds lop payload).predicateResults
        = preds.map (predEntry payload))
    ∧ (∀ (payload : Payload) (p : Predicate) (e : EvalErr),
        evaluatePredicate p payload = .error e →
        predEntry payload p = {
          field := some p.field, operator := some p.operator.value,
          expected := some p.value, passed := false,
          reason := some (generateErrorReason p.field e.pyMessage),
          error := some e.pyMessage })
    ∧ (∀ (payload : Payload) (p : Predicate) (e : EvalErr),
        evaluatePredicate p payload = .error e →
        predOutcome payload p = false) := by
  refine ⟨?_, ?_, ?_⟩
  · intro ruleName preds lop payload
    simp [evaluatePredicateRule, predFold_results]
  · intro payload p e h
    simp [predEntry, h]
  · intro payload p e h
    simp [predOutcome, h]

/-- Witness for C7: a predicate on a field absent from the payload is
recorded as a failed entry carrying the MissingField message. -/
theorem claim_C7_predicate_error_containment_witness :
    predEntry [] ⟨"age", .greaterThan, .int 18⟩ = {
      field := some "age", operator := some ">",
      expected := some (.int 18), passed := false,
      reason := some (generateErrorReason "age"
        (EvalErr.missingField "age").pyMessage),
      error := some (EvalErr.missingField "age").pyMessage } :=
  claim_C7_predicate_error_containment.2.1 [] ⟨"age", .greaterThan, .int 18⟩
    (.missingField "age") (by decide)

/-- The duplicated operator dispatches of `_evaluate_comparison` and
`_perform_comparison` are the same function. -/
theorem performComparisonOp_eq_plain (f op : String) (actual expected : Value) :
    performComparisonOp f op actual expected
      = comparisonOpPlain f op actual expected := rfl

/-- The boolean component of the tracking comparison is its `try`
block's result. -/
theorem evalCmpTracking_fst (payload : Payload) (f op : String) (rhs : Rhs) :
    (evalCmpTracking payload f op rhs).1
      = match cmpTrackingAttempt payload f op rhs with
        | .ok (passed, _, _) => .ok passed
        | .error e => .error e := by
  simp only [evalCmpTracking]
  rcases hA : cmpTrackingAttempt payload f op rhs with e | ⟨passed, expected, actual⟩
  · cases e <;> rfl
  · rfl

/-- The plain comparison evaluator computes exactly the boolean of the
tracking comparison's `try` block: the two copies of the comparison
logic agree. -/
theorem evaluateComparison_eq_attempt (payload : Payload) (f op : String)
    (rhs : Rhs) :
    evaluateComparison payload f op rhs
      = match cmpTrackingAttempt payload f op rhs with
        | .ok (passed, _, _) => .ok passed
        | .error e => .error e := by
  cases hf : payload.find f with
  | none => simp [evaluateComparison, cmpTrackingAttempt, hf]
  | some actual =>
    cases rhs with
    | lit v =>
      cases hcp : comparisonOpPlain f op actual v with
      | ok b =>
        simp [evaluateComparison, cmpTrackingAttempt, performComparison,
          performComparisonOp_eq_plain, hf, hcp]
      | error e =>
        simp [evaluateComparison, cmpTrackingAttempt, performComparison,
          performComparisonOp_eq_plain, hf, hcp]
    | fieldRef g =>
      cases hg : payload.find g with
      | none =>
        simp [evaluateComparison, cmpTrackingAttempt, hf, hg]
      | some expected =>
        cases hcp : comparisonOpPlain f op actual expected with
        | ok b =>
          simp [evaluateComparison, cmpTrackingAttempt, performComparison,
            performComparisonOp_eq_plain, hf, hg, hcp]
        | error e =>
          simp [evaluateComparison, cmpTrackingAttempt, performComparison,
            performComparisonOp_eq_plain, hf, hg, hcp]

/-- The first component of the tracing evaluator on a comparison node
is the tracking comparison's result. -/
theorem evalDetailed_cmp_fst (payload : Payload) (f op : String) (rhs : Rhs)
    (acc : List TraceEntry) :
    (evalDetailed payload (.cmp f op rhs) acc).1
      = (evalCmpTracking payload f op rhs).1 := by
  rcases hE : evalCmpTracking payload f op rhs with ⟨r, entry⟩
  simp [evalDetailed, hE]

/-- C3: the plain and tracing evaluators agree — whenever
`ExpressionEvaluator.evaluate` returns a boolean without raising,
`DetailedExpressionEvaluator.evaluate` (from any already-accumulated
trace state) returns the same boolean. -/
theorem claim_C3_evaluators_agree :
    ∀ (payload : Payload) (e : Expr) (b : Bool),
      evaluateExpr payload e = .ok b →
      ∀ acc, (evalDetailed payload e acc).1 = .ok b := by
  intro payload e
  induction e with
  | cmp f op rhs =>
    intro b h acc
    rw [evalDetailed_cmp_fst, evalCmpTracking_fst,
      ← evaluateComparison_eq_attempt]
    exact h
  | binop op l r ihl ihr =>
    intro b h acc
    rcases hl : evaluateExpr payload l with el | lb
    · rw [evaluateExpr, hl] at h
      simp at h
    · rcases hr : evaluateExpr payload r with er | rb
      · rw [evaluateExpr, hl, hr] at h
        simp at h
      · rw [evaluateExpr, hl, hr] at h
        dsimp only at h
        obtain ⟨acc₁, hD₁⟩ : ∃ a, evalDetailed payload l acc = (.ok lb, a) := by
          rcases hE : evalDetailed payload l acc with ⟨r₁, a₁⟩
          have h₁ := ihl lb hl acc
          rw [hE] at h₁
          dsimp only at h₁
          exact ⟨a₁, by rw [h₁]⟩
        obtain ⟨acc₂, hD₂⟩ : ∃ a, evalDetailed payload r acc₁ = (.ok rb, a) := by
          rcases hE : evalDetailed payload r acc₁ with ⟨r₂, a₂⟩
          have h₂ := ihr rb hr acc₁
          rw [hE] at h₂
          dsimp only at h₂
          exact ⟨a₂, by rw [h₂]⟩
        rw [evalDetailed, hD₁]
        dsimp only
        rw [hD₂]
        dsimp only
        by_cases hand : (op == "AND") = true
        · simp only [hand, if_true] at h ⊢
          exact h
        · by_cases hor : (op == "OR") = true
          · simp only [hand, hor, if_false, if_true] at h ⊢
            exact h
          · simp only [hand, hor, if_false] at h
            exact absurd h (by simp)

/-- Witness for C3: both evaluators return `true` for `age >= 18`
against `{age: 25}`. -/
theorem claim_C3_evaluators_agree_witness :
    (evalDetailed [("age", .int 25)]
      (.cmp "age" ">=" (.lit (.int 18))) []).1 = .ok true :=
  claim_C3_evaluators_agree [("age", .int 25)]
    (.cmp "age" ">=" (.lit (.int 18))) true (by decide) []

/-- A tracking comparison whose result is a success always appends a
trace entry. -/
theorem evalCmpTracking_ok (payload : Payload) (f op : String) (rhs : Rhs)
    (h : (evalCmpTracking payload f op rhs).1.isOk = true) :
    ∃ b entry, evalCmpTracking payload f op rhs = (.ok b, some entry) := by
  rcases hA : cmpTrackingAttempt payload f op rhs with e | ⟨passed, expected, actual⟩
  · rw [evalCmpTracking_fst, hA] at h
    simp [Except.isOk, Except.toBool] at h
  · refine ⟨passed, ⟨f, op, expected, actual, passed, rhs.isFieldComparison,
      rhs.comparedField, none⟩, ?_⟩
    simp [evalCmpTracking, hA]

/-- A list maps to as many elements as it has under a `filterMap` that
is `some` on all of its elements. -/
theorem length_filterMap_of_isSome {α β : Type} (f : α → Option β) :
    ∀ (xs : List α), (∀ x ∈ xs, (f x).isSome = true) →
      (xs.filterMap f).length = xs.length := by
  intro xs
  induction xs with
  | nil => intro _; rfl
  | cons x xs ih =>
    intro h
    have hx := h x (by simp)
    rcases hfx : f x with _ | y
    · rw [hfx] at hx; simp at hx
    · simp [List.filterMap_cons, hfx, ih (fun a ha => h a (by simp [ha]))]

/-- The tracing evaluator, on an AST whose binary operators are all
AND/OR and whose comparison leaves all evaluate without error, returns
a success and appends exactly one trace entry per comparison leaf, in
left-to-right leaf order. -/
theorem evalDetailed_trace_complete (payload : Payload) :
    ∀ (e : Expr), e.opsValid = true →
      (∀ l ∈ e.leaves, (leafResult payload l).isOk = true) →
      ∀ acc, ∃ b, evalDetailed payload e acc
        = (.ok b, acc ++ e.leaves.filterMap (leafEntry payload)) := by
  intro e
  induction e with
  | cmp f op rhs =>
    intro _ hleaf acc
    have hL := hleaf (f, op, rhs) (by simp [Expr.leaves])
    rw [leafResult] at hL
    obtain ⟨b, entry, hE⟩ := evalCmpTracking_ok payload f op rhs hL
    refine ⟨b, ?_⟩
    simp [evalDetailed, hE, Expr.leaves, leafEntry]
  | binop op l r ihl ihr =>
    intro hop hleaf acc
    simp only [Expr.opsValid, Bool.and_eq_true, Bool.or_eq_true,
      beq_iff_eq] at hop
    obtain ⟨⟨hAndOr, hlv⟩, hrv⟩ := hop
    obtain ⟨lb, hL⟩ := ihl hlv
      (fun x hx => hleaf x (by simp [Expr.leaves, hx])) acc
    obtain ⟨rb, hR⟩ := ihr hrv
      (fun x hx => hleaf x (by simp [Expr.leaves, hx]))
      (acc ++ l.leaves.filterMap (leafEntry payload))
    rcases hAndOr with hAnd | hOr
    · refine ⟨lb && rb, ?_⟩
      rw [evalDetailed, hL]
      dsimp only
      rw [hR]
      dsimp only
      simp [hAnd, Expr.leaves, List.filterMap_append, List.append_assoc]
    · refine ⟨lb || rb, ?_⟩
      rw [evalDetailed, hL]
      dsimp only
      rw [hR]
      dsimp only
      simp [hOr, Expr.leaves, List.filterMap_append, List.append_assoc]

/-- C1: on an AST whose binary operators are AND/OR and whose
comparison leaves all evaluate without error, the tracing evaluator
evaluates both operands of every binary node and returns a trace with
exactly one entry per comparison leaf, in left-to-right leaf order,
even when the left operand already determines the outcome; in
particular for the AST of `"age>=18 OR score>100"` and
`{age: 25, score: 50}` the result is `true` and the trace has exactly
the two entries (age passed, score failed). -/
theorem claim_C1_no_short_circuit_full_trace :
    (∀ (payload : Payload) (e : Expr),
      e.opsValid = true →
      (∀ l ∈ e.leaves, (leafResult payload l).isOk = true) →
      ∃ b tr, evaluateExpressionDetailed e payload = .ok (b, tr)
        ∧ tr = e.leaves.filterMap (leafEntry payload)
        ∧ tr.length = e.leaves.length)
    ∧ parse_expression "age>=18 OR score>100" = .ok
        (.binop "OR" (.cmp "age" ">=" (.lit (.int 18)))
          (.cmp "score" ">" (.lit (.int 100))))
    ∧ evaluateExpressionDetailed
        (.binop "OR" (.cmp "age" ">=" (.lit (.int 18)))
          (.cmp "score" ">" (.lit (.int 100))))
        [("age", .int 25), ("score", .int 50)]
      = .ok (true,
          [⟨"age", ">=", .int 18, .int 25, true, false, none, none⟩,
           ⟨"score", ">", .int 100, .int 50, false, false, none, none⟩]) := by
  refine ⟨?_, by decide, by decide⟩
  intro payload e hops hleaf
  obtain ⟨b, hD⟩ := evalDetailed_trace_complete payload e hops hleaf []
  refine ⟨b, e.leaves.filterMap (leafEntry payload), ?_, rfl, ?_⟩
  · rw [evaluateExpressionDetailed, hD]
    rfl
  · refine length_filterMap_of_isSome (leafEntry payload) e.leaves ?_
    intro x hx
    rcases x with ⟨f, op, rhs⟩
    have hL := hleaf (f, op, rhs) hx
    rw [leafResult] at hL
    obtain ⟨b', entry, hE⟩ := evalCmpTracking_ok payload f op rhs hL
    simp [leafEntry, hE]

/-- Witness for C1: the general trace-completeness statement applied to
the OR example whose left operand already decides the outcome. -/
theorem claim_C1_no_short_circuit_full_trace_witness :
    ∃ b tr, evaluateExpressionDetailed
        (.binop "OR" (.cmp "age" ">=" (.lit (.int 18)))
          (.cmp "score" ">" (.lit (.int 100))))
        [("age", .int 25), ("score", .int 50)]
      = .ok (b, tr)
      ∧ tr = (Expr.binop "OR" (.cmp "age" ">=" (.lit (.int 18)))
          (.cmp "score" ">" (.lit (.int 100)))).leaves.filterMap
            (leafEntry [("age", .int 25), ("score", .int 50)])
      ∧ tr.length = (Expr.binop "OR" (.cmp "age" ">=" (.lit (.int 18)))
          (.cmp "score" ">" (.lit (.int 100)))).leaves.length :=
  claim_C1_no_short_circuit_full_trace.1
    [("age", .int 25), ("score", .int 50)]
    (.binop "OR" (.cmp "age" ">=" (.lit (.int 18)))
      (.cmp "score" ">" (.lit (.int 100))))
    (by decide) (by decide)

/-- `_parse_comparison` on a `field op literal` token triple consumes
exactly the triple and yields the comparison node. -/
theorem parseCmp_triple (fuel : Nat) (c : String × String × Value)
    (rest : List Token) :
    parseCmp (fuel + 1) (cmpToks c ++ rest) = some (.ok (mkCmpNode c, rest)) := by
  rcases c with ⟨f, op, v⟩
  simp [parseCmp, cmpToks, currentToken, mkCmpNode, Value.asStr]

/-- The AND loop of `_parse_and` over a flat `AND`-separated chain
left-nests the accumulated expression. -/
theorem parseAndLoop_chain :
    ∀ (cs : List (String × String × Value)) (fuel : Nat) (left : Expr)
      (rest : List Token),
      (currentToken rest).type ≠ .and →
      2 * cs.length + 1 ≤ fuel →
      parseAndLoop fuel left
          (cs.flatMap (fun c => andTok :: cmpToks c) ++ rest)
        = some (.ok
            (cs.foldl (fun acc c => .binop "AND" acc (mkCmpNode c)) left, rest)) := by
  intro cs
  induction cs with
  | nil =>
    intro fuel left rest hrest hfuel
    rcases fuel with _ | f
    · omega
    · simp [parseAndLoop, hrest]
  | cons c cs ih =>
    intro fuel left rest hrest hfuel
    simp only [List.length_cons] at hfuel
    rcases fuel with _ | f
    · omega
    rcases f with _ | g
    · omega
    simp only [List.flatMap_cons, List.cons_append, List.append_assoc]
    rw [parseAndLoop]
    simp only [currentToken, List.tail_cons]
    rw [if_pos (show andTok.type = TokenType.and from rfl)]
    rw [parseCmp_triple g c
      (cs.flatMap (fun c => andTok :: cmpToks c) ++ rest)]
    dsimp only
    have := ih (g + 1) (.binop "AND" left (mkCmpNode c)) rest hrest (by omega)
    simp only [List.foldl_cons]
    exact this

/-- `_parse_and` on a flat `AND`-separated chain yields the left-leaning
tree. -/
theorem parseAnd_chain (cs : List (String × String × Value))
    (c₀ : String × String × Value) (rest : List Token) (fuel : Nat)
    (hrest : (currentToken rest).type ≠ .and)
    (hfuel : 2 * cs.length + 2 ≤ fuel) :
    parseAnd fuel (chainToks andTok c₀ cs ++ rest)
      = some (.ok (leftNested "AND" c₀ cs, rest)) := by
  rcases fuel with _ | f
  · omega
  rcases f with _ | g
  · omega
  rw [parseAnd]
  simp only [chainToks, List.append_assoc]
  rw [parseCmp_triple g c₀ (cs.flatMap (fun c => andTok :: cmpToks c) ++ rest)]
  exact parseAndLoop_chain cs (g + 1) (mkCmpNode c₀) rest hrest (by omega)

/-- The head token of an `OR`-separated chain followed by `rest` is
either the chain's `OR` or the head of `rest`; in both cases it is not
an `AND` token when `rest`'s is not. -/
theorem chain_head_not_and (cs : List (String × String × Value))
    (rest : List Token) (hrest : (currentToken rest).type ≠ .and) :
    (currentToken (cs.flatMap (fun c => orTok :: cmpToks c) ++ rest)).type
      ≠ .and := by
  cases cs with
  | nil => simpa using hrest
  | cons c cs => simp [currentToken, orTok]

/-- The OR loop of `_parse_or` over a flat `OR`-separated chain
left-nests the accumulated expression. -/
theorem parseOrLoop_chain :
    ∀ (cs : List (String × String × Value)) (fuel : Nat) (left : Expr)
      (rest : List Token),
      (currentToken rest).type ≠ .or →
      (currentToken rest).type ≠ .and →
      3 * cs.length + 1 ≤ fuel →
      parseOrLoop fuel left
          (cs.flatMap (fun c => orTok :: cmpToks c) ++ rest)
        = some (.ok
            (cs.foldl (fun acc c => .binop "OR" acc (mkCmpNode c)) left, rest)) := by
  intro cs
  induction cs with
  | nil =>
    intro fuel left rest hror hrand hfuel
    rcases fuel with _ | f
    · omega
    · simp [parseOrLoop, hror]
  | cons c cs ih =>
    intro fuel left rest hror hrand hfuel
    simp only [List.length_cons] at hfuel
    rcases fuel with _ | f
    · omega
    simp only [List.flatMap_cons, List.cons_append, List.append_assoc]
    rw [parseOrLoop]
    simp only [currentToken, List.tail_cons]
    rw [if_pos (show orTok.type = TokenType.or from rfl)]
    have hA := parseAnd_chain [] c
      (cs.flatMap (fun c => orTok :: cmpToks c) ++ rest) f
      (chain_head_not_and cs rest hrand)
      (by simp only [List.length_nil]; omega)
    simp only [chainToks, List.flatMap_nil, List.append_nil,
      leftNested, List.foldl_nil] at hA
    rw [hA]
    dsimp only
    have := ih f (.binop "OR" left (mkCmpNode c)) rest hror hrand (by omega)
    simp only [List.foldl_cons]
    exact this

/-- `_parse_or` on a flat `OR`-separated chain of comparisons yields
the left-leaning tree. -/
theorem parseOr_chain (cs : List (String × String × Value))
    (c₀ : String × String × Value) (rest : List Token) (fuel : Nat)
    (hror : (currentToken rest).type ≠ .or)
    (hrand : (currentToken rest).type ≠ .and)
    (hfuel : 3 * cs.length + 3 ≤ fuel) :
    parseOr fuel (chainToks orTok c₀ cs ++ rest)
      = some (.ok (leftNested "OR" c₀ cs, rest)) := by
  rcases fuel with _ | f
  · omega
  rw [parseOr]
  simp only [chainToks, List.append_assoc]
  have hA := parseAnd_chain [] c₀
    (cs.flatMap (fun c => orTok :: cmpToks c) ++ rest) f
    (chain_head_not_and cs rest hrand)
    (by simp only [List.length_nil]; omega)
  simp only [chainToks, List.flatMap_nil, List.append_nil,
    leftNested, List.foldl_nil] at hA
  rw [hA]
  exact parseOrLoop_chain cs f (mkCmpNode c₀) rest hror hrand (by omega)

/-- C2: the parser applies two-level precedence with left
associativity.  Over token streams, a flat `AND`-separated chain
parses to the left-leaning `AND` tree and a flat `OR`-separated chain
to the left-leaning `OR` tree (every chain of same-operator binary
nodes built by the `_parse_or` / `_parse_and` loops nests on the
left); and concretely, `"a==1 OR b==2 AND c==3"` parses as
`Or(a==1, And(b==2, c==3))` (AND binds tighter) while
`"a==1 AND b==2 AND c==3"` parses as the left-leaning
`And(And(a==1, b==2), c==3)`. -/
theorem claim_C2_precedence_left_associativity :
    (∀ (cs : List (String × String × Value)) (c₀ : String × String × Value)
        (rest : List Token) (fuel : Nat),
      (currentToken rest).type ≠ .and →
      2 * cs.length + 2 ≤ fuel →
      parseAnd fuel (chainToks andTok c₀ cs ++ rest)
        = some (.ok (leftNested "AND" c₀ cs, rest)))
    ∧ (∀ (cs : List (String × String × Value)) (c₀ : String × String × Value)
        (rest : List Token) (fuel : Nat),
      (currentToken rest).type ≠ .or →
      (currentToken rest).type ≠ .and →
      3 * cs.length + 3 ≤ fuel →
      parseOr fuel (chainToks orTok c₀ cs ++ rest)
        = some (.ok (leftNested "OR" c₀ cs, rest)))
    ∧ parse_expression "a==1 OR b==2 AND c==3" = .ok
        (.binop "OR" (.cmp "a" "==" (.lit (.int 1)))
          (.binop "AND" (.cmp "b" "==" (.lit (.int 2)))
            (.cmp "c" "==" (.lit (.int 3)))))
    ∧ parse_expression "a==1 AND b==2 AND c==3" = .ok
        (.binop "AND"
          (.binop "AND" (.cmp "a" "==" (.lit (.int 1)))
            (.cmp "b" "==" (.lit (.int 2))))
          (.cmp "c" "==" (.lit (.int 3)))) := by
  refine ⟨?_, ?_, by decide, by decide⟩
  · intro cs c₀ rest fuel hrest hfuel
    exact parseAnd_chain cs c₀ rest fuel hrest hfuel
  · intro cs c₀ rest fuel hror hrand hfuel
    exact parseOr_chain cs c₀ rest fuel hror hrand hfuel

/-- Witness for C2: a two-element `AND` chain over tokens parses to the
left-nested tree. -/
theorem claim_C2_precedence_left_associativity_witness :
    parseAnd 8 (chainToks andTok ("a", "==", Value.int 1)
        [("b", "==", Value.int 2), ("c", "==", Value.int 3)] ++ [eofTok])
      = some (.ok (leftNested "AND" ("a", "==", Value.int 1)
          [("b", "==", Value.int 2), ("c", "==", Value.int 3)], [eofTok])) :=
  claim_C2_precedence_left_associativity.1
    [("b", "==", Value.int 2), ("c", "==", Value.int 3)]
    ("a", "==", Value.int 1) [eofTok] 8 (by decide) (by decide)

/-! ### Tokenizer termination (C9) -/

/-- Skipping whitespace never lengthens the remaining input. -/
theorem skipWs_length : ∀ (rest : List Char) (pos : Nat),
    (skipWs rest pos).1.length ≤ rest.length
  | [], _ => by simp [skipWs]
  | c :: rest, pos => by
    rw [skipWs]
    by_cases h : pyIsSpace c = true
    · have := skipWs_length rest (pos + 1)
      simp only [h, if_true, List.length_cons]
      omega
    · simp [h]

/-- The after-element step of the array reader never lengthens the
remaining input. -/
theorem arrayStepAdvance_length (rest : List Char) (pos : Nat) :
    (arrayStepAdvance rest pos).1.length ≤ rest.length := by
  rw [arrayStepAdvance]
  rcases h : skipWs rest pos with ⟨r₁, p₁⟩
  have hle := skipWs_length rest pos
  rw [h] at hle
  cases r₁ with
  | nil => simp
  | cons c r₄ =>
    simp only [List.length_cons] at hle
    by_cases hc : (c == ',') = true
    · simp only [hc, if_true]
      omega
    · simp only [hc, if_false, Bool.false_eq_true, List.length_cons]
      omega

/-- The string-literal scan never lengthens the remaining input. -/
theorem readStringBody_length : ∀ (rest : List Char) (q : Char) (pos : Nat),
    (readStringBody rest q pos).2.1.length ≤ rest.length
  | [], _, _ => by simp [readStringBody]
  | c :: rest, q, pos => by
    rw [readStringBody.eq_def]
    dsimp only
    by_cases hq : (c == q) = true
    · simp only [hq, if_true, List.length_cons]
      omega
    · by_cases hb : (c == '\\') = true
      · simp only [hq, hb, Bool.false_eq_true, if_false, if_true]
        cases rest with
        | nil => simp
        | cons c₂ rest₂ =>
          have ih := readStringBody_length rest₂ q (pos + 2)
          rcases hR : readStringBody rest₂ q (pos + 2) with ⟨v, r, p⟩
          rw [hR] at ih
          simp only [hR, List.length_cons]
          simp at ih ⊢
          omega
      · have ih := readStringBody_length rest q (pos + 1)
        rcases hR : readStringBody rest q (pos + 1) with ⟨v, r, p⟩
        rw [hR] at ih
        simp only [hq, hb, Bool.false_eq_true, if_false, hR, List.length_cons]
        simp at ih ⊢
        omega

/-- An operator accepted by the candidate loop strictly consumes
input. -/
theorem tryReadOpFrom_length : ∀ (ops : List String) (rest : List Char)
    (pos : Nat) (op : String) (rest' : List Char) (pos' : Nat),
    tryReadOpFrom ops rest pos = some (op, rest', pos') →
    (∀ o ∈ ops, 1 ≤ o.length) →
    rest'.length < rest.length := by
  intro ops
  induction ops with
  | nil => intro rest pos op rest' pos' h _; simp [tryReadOpFrom] at h
  | cons op₀ ops ih =>
    intro rest pos op rest' pos' h hlen
    rw [tryReadOpFrom] at h
    split at h
    · rename_i hcond
      simp only [Option.some.injEq, Prod.mk.injEq] at h
      obtain ⟨rfl, rfl, rfl⟩ := h
      rw [Bool.and_eq_true] at hcond
      have hpre : op₀.toList.length ≤ rest.length :=
        (List.isPrefixOf_iff_prefix.mp hcond.1).length_le
      have h1 : 1 ≤ op₀.length := hlen op₀ (by simp)
      have h2 : op₀.toList.length = op₀.length := rfl
      simp only [List.length_drop]
      omega
    · exact ih rest pos op rest' pos' h (fun o ho => hlen o (by simp [ho]))

/-- A successful `_try_read_operator` strictly consumes input. -/
theorem tryReadOperator_length (s rest : List Char) (pos : Nat) (op : String)
    (rest' : List Char) (pos' : Nat)
    (h : tryReadOperator s rest pos = .ok (some (op, rest', pos'))) :
    rest'.length < rest.length := by
  rw [tryReadOperator.eq_def] at h
  split at h
  · rename_i r hf
    simp only [Except.ok.injEq, Option.some.injEq] at h
    subst h
    exact tryReadOpFrom_length opCandidates rest pos op rest' pos' hf
      (by decide)
  · rcases rest with _ | ⟨c₀, rest₀⟩
    · simp at h
    · dsimp only at h
      split_ifs at h
      · cases h
        simp
      · cases h
        simp
      · simp at h

/-- A successful number scan strictly consumes input (the scanned
literal is nonempty, or `int()`/`float()` would have raised). -/
theorem readNumberBody_ok_length (neg : Bool) (rest₁ : List Char) (pos₁ : Nat)
    (v : Value) (rest₂ : List Char) (pos₂ : Nat)
    (h : readNumberBody neg rest₁ pos₁ = .ok (v, rest₂, pos₂)) :
    rest₂.length < rest₁.length := by
  have hds := (rest₁.takeWhile_sublist (fun c => pyIsDigit c || c == '.')).length_le
  rw [readNumberBody] at h
  split at h
  · rename_i hdot
    split at h
    · rename_i v' hPF
      cases h
      have hne : rest₁.takeWhile (fun c => pyIsDigit c || c == '.') ≠ [] := by
        intro hnil
        rw [hnil] at hdot
        simp at hdot
      have h1 : 1 ≤ (rest₁.takeWhile (fun c => pyIsDigit c || c == '.')).length := by
        cases hq : rest₁.takeWhile (fun c => pyIsDigit c || c == '.') with
        | nil => exact absurd hq hne
        | cons a l => simp [hq]
      simp only [List.length_drop]
      omega
    · exact absurd h (by simp)
  · rename_i hdot
    split at h
    · rename_i n hPI
      cases h
      have hne : rest₁.takeWhile (fun c => pyIsDigit c || c == '.') ≠ [] := by
        intro hnil
        rw [hnil] at hPI
        cases neg <;> simp [parsePyInt] at hPI
      have h1 : 1 ≤ (rest₁.takeWhile (fun c => pyIsDigit c || c == '.')).length := by
        cases hq : rest₁.takeWhile (fun c => pyIsDigit c || c == '.') with
        | nil => exact absurd hq hne
        | cons a l => simp [hq]
      simp only [List.length_drop]
      omega
    · exact absurd h (by simp)

/-- A successful `_read_number` strictly consumes input. -/
theorem readNumber_ok_length (rest : List Char) (pos : Nat) (v : Value)
    (rest' : List Char) (pos' : Nat)
    (h : readNumber rest pos = .ok (v, rest', pos')) :
    rest'.length < rest.length := by
  cases rest with
  | nil => simp [readNumber, readNumberBody, parsePyInt] at h
  | cons c r =>
    rw [readNumber] at h
    split_ifs at h with hc
    · have := readNumberBody_ok_length true r (pos + 1) v rest' pos' h
      simp only [List.length_cons]
      omega
    · have := readNumberBody_ok_length false (c :: r) pos v rest' pos' h
      exact this

/-- When the bareword slice of an array element is empty, the current
character must be the `,` (a `]` is handled earlier). -/
theorem bareword_comma (c : Char) (rest₂ : List Char)
    (hbr : ¬(c == ']') = true)
    (hraw : ((c :: rest₂).takeWhile (fun ch => ch != ',' && ch != ']')).length = 0) :
    c = ',' := by
  rw [List.takeWhile_cons] at hraw
  by_cases hp : (c != ',' && c != ']') = true
  · simp [hp] at hraw
  · simp only [Bool.and_eq_true, bne_iff_ne] at hp
    by_cases hc : c = ','
    · exact hc
    · have hcr : c = ']' := by tauto
      simp [hcr] at hbr

/-- The array reader, with fuel exceeding the remaining input length,
never exhausts its fuel, and on success it has consumed a prefix of the
input. -/
theorem readArray_total (s : List Char) :
    ∀ (fuel : Nat) (rest : List Char) (pos : Nat) (acc : List Value),
      rest.length < fuel →
      ∃ res, readArray s fuel rest pos acc = some res ∧
        ∀ vs rest' pos', res = .ok (vs, rest', pos') →
          rest'.length ≤ rest.length := by
  intro fuel
  induction fuel with
  | zero => intro rest pos acc h; omega
  | succ fuel ih =>
    intro rest pos acc hlen
    rw [readArray]
    by_cases hre : rest.isEmpty = true
    · rw [if_pos hre]
      exact ⟨.ok (acc, rest, pos), rfl, by
        intro vs r' p' h
        cases h
        exact le_refl _⟩
    · rw [if_neg hre]
      rcases hsw : skipWs rest pos with ⟨rest₁, pos₁⟩
      have hle₁ : rest₁.length ≤ rest.length := by
        have := skipWs_length rest pos
        rw [hsw] at this
        exact this
      dsimp only
      cases rest₁ with
      | nil =>
        exact ⟨.error .indexError, rfl, by intro vs r' p' h; simp at h⟩
      | cons c rest₂ =>
        dsimp only
        simp only [List.length_cons] at hle₁
        by_cases h1 : (c == ']') = true
        · rw [if_pos h1]
          exact ⟨.ok (acc, rest₂, pos₁ + 1), rfl, by
            intro vs r' p' h
            cases h
            omega⟩
        · rw [if_neg h1]
          by_cases h2 : (c == '"' || c == '\'') = true
          · rw [if_pos h2]
            rcases hSB : readStringBody rest₂ c (pos₁ + 1) with ⟨v, rest₃, pos₃⟩
            have hb3 : rest₃.length ≤ rest₂.length := by
              have := readStringBody_length rest₂ c (pos₁ + 1)
              rw [hSB] at this
              exact this
            dsimp only
            rcases hAS : arrayStepAdvance rest₃ pos₃ with ⟨rest₄, pos₄⟩
            have hb4 : rest₄.length ≤ rest₃.length := by
              have := arrayStepAdvance_length rest₃ pos₃
              rw [hAS] at this
              exact this
            dsimp only
            obtain ⟨res, hres, hbound⟩ :=
              ih rest₄ pos₄ (acc ++ [.str (String.mk v)]) (by omega)
            exact ⟨res, hres, fun vs r' p' h =>
              le_trans (hbound vs r' p' h) (by omega)⟩
          · rw [if_neg h2]
            by_cases h3 : (pyIsDigit c || c == '-') = true
            · rw [if_pos h3]
              rcases hRN : readNumber (c :: rest₂) pos₁ with e | ⟨v, rest₃, pos₃⟩
              · exact ⟨.error e, rfl, by intro vs r' p' h; simp at h⟩
              · have hb3 := readNumber_ok_length (c :: rest₂) pos₁ v rest₃ pos₃ hRN
                simp only [List.length_cons] at hb3
                dsimp only
                rcases hAS : arrayStepAdvance rest₃ pos₃ with ⟨rest₄, pos₄⟩
                have hb4 : rest₄.length ≤ rest₃.length := by
                  have := arrayStepAdvance_length rest₃ pos₃
                  rw [hAS] at this
                  exact this
                dsimp only
                obtain ⟨res, hres, hbound⟩ := ih rest₄ pos₄ (acc ++ [v]) (by omega)
                exact ⟨res, hres, fun vs r' p' h =>
                  le_trans (hbound vs r' p' h) (by omega)⟩
            · rw [if_neg h3]
              rcases hAS : arrayStepAdvance
                  ((c :: rest₂).drop
                    ((c :: rest₂).takeWhile (fun ch => ch != ',' && ch != ']')).length)
                  (pos₁ + ((c :: rest₂).takeWhile (fun ch => ch != ',' && ch != ']')).length)
                with ⟨rest₄, pos₄⟩
              have hb4 : rest₄.length ≤
                  ((c :: rest₂).drop
                    ((c :: rest₂).takeWhile (fun ch => ch != ',' && ch != ']')).length).length := by
                have := arrayStepAdvance_length
                  ((c :: rest₂).drop
                    ((c :: rest₂).takeWhile (fun ch => ch != ',' && ch != ']')).length)
                  (pos₁ + ((c :: rest₂).takeWhile (fun ch => ch != ',' && ch != ']')).length)
                rw [hAS] at this
                exact this
              dsimp only
              by_cases hr0 :
                  ((c :: rest₂).takeWhile (fun ch => ch != ',' && ch != ']')).length = 0
              · have hc : c = ',' := bareword_comma c rest₂ h1 hr0
                have hstep : rest₄ = rest₂ := by
                  rw [hr0] at hAS
                  subst hc
                  have hred : arrayStepAdvance ((',' :: rest₂).drop 0) (pos₁ + 0)
                      = (rest₂, pos₁ + 0 + 1) := by
                    simp [arrayStepAdvance, skipWs, pyIsSpace]
                  rw [hred] at hAS
                  exact (congrArg Prod.fst hAS).symm
                have hlen₄ : rest₄.length = rest₂.length := by rw [hstep]
                obtain ⟨res, hres, hbound⟩ := ih rest₄ pos₄ _ (by omega)
                exact ⟨res, hres, fun vs r' p' h =>
                  le_trans (hbound vs r' p' h) (by omega)⟩
              · have hb3 : ((c :: rest₂).drop
                    ((c :: rest₂).takeWhile (fun ch => ch != ',' && ch != ']')).length).length
                    ≤ rest₂.length := by
                  simp only [List.length_drop, List.length_cons]
                  omega
                obtain ⟨res, hres, hbound⟩ := ih rest₄ pos₄ _ (by omega)
                exact ⟨res, hres, fun vs r' p' h =>
                  le_trans (hbound vs r' p' h) (by omega)⟩

/-- The scan loop of the tokenizer, with fuel exceeding the remaining
input length, never exhausts its fuel (every iteration strictly
consumes input), and when it succeeds the token list ends with the Eof
token. -/
theorem tokenizeAux_total (s : List Char) :
    ∀ (fuel : Nat) (rest : List Char) (pos : Nat) (acc : List Token),
      rest.length < fuel →
      ∃ r, tokenizeAux s fuel rest pos acc = some r ∧
        ∀ ts, r = .ok ts → ∃ pre p, ts = pre ++ [⟨.eof, .null, p⟩] := by
  intro fuel
  induction fuel with
  | zero => intro rest pos acc h; omega
  | succ fuel ih =>
    intro rest pos acc hlen
    rw [tokenizeAux]
    by_cases hre : rest.isEmpty = true
    · rw [if_pos hre]
      exact ⟨.ok (acc ++ [⟨.eof, .null, pos⟩]), rfl, by
        intro ts hts
        cases hts
        exact ⟨acc, pos, rfl⟩⟩
    · rw [if_neg hre]
      rcases hsw : skipWs rest pos with ⟨rest₁, pos₁⟩
      have hle₁ : rest₁.length ≤ rest.length := by
        have := skipWs_length rest pos
        rw [hsw] at this
        exact this
      dsimp only
      cases rest₁ with
      | nil =>
        exact ⟨.ok (acc ++ [⟨.eof, .null, pos₁⟩]), rfl, by
          intro ts hts
          cases hts
          exact ⟨acc, pos₁, rfl⟩⟩
      | cons c rest₂ =>
        dsimp only
        simp only [List.length_cons] at hle₁
        by_cases hlp : (c == '(') = true
        · rw [if_pos hlp]
          exact ih rest₂ (pos₁ + 1) _ (by omega)
        · rw [if_neg hlp]
          by_cases hrp : (c == ')') = true
          · rw [if_pos hrp]
            exact ih rest₂ (pos₁ + 1) _ (by omega)
          · rw [if_neg hrp]
            by_cases hand : (String.mk ((peekWord (c :: rest₂)).map Char.toUpper)
                == "AND") = true
            · rw [if_pos hand]
              refine ih ((c :: rest₂).drop 3) (pos₁ + 3) _ ?_
              simp only [List.length_drop, List.length_cons]
              omega
            · rw [if_neg hand]
              by_cases hor : (String.mk ((peekWord (c :: rest₂)).map Char.toUpper)
                  == "OR") = true
              · rw [if_pos hor]
                refine ih ((c :: rest₂).drop 2) (pos₁ + 2) _ ?_
                simp only [List.length_drop, List.length_cons]
                omega
              · rw [if_neg hor]
                rcases hop : tryReadOperator s (c :: rest₂) pos₁
                  with e | ⟨⟩ | ⟨op, rest₃, pos₃⟩
                · exact ⟨.error e, rfl, by intro ts hts; simp at hts⟩
                · -- no operator: literal/keyword/field branches
                  dsimp only
                  by_cases hq : (c == '"' || c == '\'') = true
                  · rw [if_pos hq]
                    rcases hSB : readStringBody rest₂ c (pos₁ + 1)
                      with ⟨v, rest₃, pos₃⟩
                    have hb3 : rest₃.length ≤ rest₂.length := by
                      have := readStringBody_length rest₂ c (pos₁ + 1)
                      rw [hSB] at this
                      exact this
                    dsimp only
                    exact ih rest₃ pos₃ _ (by omega)
                  · rw [if_neg hq]
                    by_cases hbr : (c == '[') = true
                    · rw [if_pos hbr]
                      obtain ⟨res, hres, hbound⟩ := readArray_total s
                        (rest₂.length + 1) rest₂ (pos₁ + 1) [] (by omega)
                      rw [hres]
                      rcases res with e | ⟨vs, rest₃, pos₃⟩
                      · exact ⟨.error e, rfl, by intro ts hts; simp at hts⟩
                      · have hb3 : rest₃.length ≤ rest₂.length :=
                          hbound vs rest₃ pos₃ rfl
                        dsimp only
                        exact ih rest₃ pos₃ _ (by omega)
                    · rw [if_neg hbr]
                      by_cases hdig : (pyIsDigit c || c == '-') = true
                      · rw [if_pos hdig]
                        rcases hRN : readNumber (c :: rest₂) pos₁
                          with e | ⟨v, rest₃, pos₃⟩
                        · exact ⟨.error e, rfl, by intro ts hts; simp at hts⟩
                        · have hb3 := readNumber_ok_length (c :: rest₂) pos₁
                            v rest₃ pos₃ hRN
                          simp only [List.length_cons] at hb3
                          dsimp only
                          exact ih rest₃ pos₃ _ (by omega)
                      · rw [if_neg hdig]
                        by_cases hbool : (String.mk ((peekWord (c :: rest₂)).map
                              Char.toLower) == "true"
                            || String.mk ((peekWord (c :: rest₂)).map
                              Char.toLower) == "false") = true
                        · rw [if_pos hbool]
                          have hw : 1 ≤ (peekWord (c :: rest₂)).length := by
                            by_contra hw0
                            have : peekWord (c :: rest₂) = [] := by
                              cases hpe : peekWord (c :: rest₂) with
                              | nil => rfl
                              | cons a l => rw [hpe] at hw0; simp at hw0
                            rw [this] at hbool
                            simp at hbool
                          refine ih ((c :: rest₂).drop
                            (peekWord (c :: rest₂)).length) _ _ ?_
                          simp only [List.length_drop, List.length_cons]
                          omega
                        · rw [if_neg hbool]
                          by_cases hnull : (String.mk ((peekWord (c :: rest₂)).map
                              Char.toLower) == "null") = true
                          · rw [if_pos hnull]
                            have hw : 1 ≤ (peekWord (c :: rest₂)).length := by
                              by_contra hw0
                              have : peekWord (c :: rest₂) = [] := by
                                cases hpe : peekWord (c :: rest₂) with
                                | nil => rfl
                                | cons a l => rw [hpe] at hw0; simp at hw0
                              rw [this] at hnull
                              simp at hnull
                            refine ih ((c :: rest₂).drop
                              (peekWord (c :: rest₂)).length) _ _ ?_
                            simp only [List.length_drop, List.length_cons]
                            omega
                          · rw [if_neg hnull]
                            by_cases hwe : (peekWord (c :: rest₂)).isEmpty = true
                            · rw [if_pos hwe]
                              exact ⟨.error (.unexpectedChar c pos₁ (ctxAt s pos₁)),
                                rfl, by intro ts hts; simp at hts⟩
                            · rw [if_neg hwe]
                              have hw : 1 ≤ (peekWord (c :: rest₂)).length := by
                                cases hpe : peekWord (c :: rest₂) with
                                | nil => rw [hpe] at hwe; simp at hwe
                                | cons a l => simp [hpe]
                              refine ih ((c :: rest₂).drop
                                (peekWord (c :: rest₂)).length) _ _ ?_
                              simp only [List.length_drop, List.length_cons]
                              omega
                · -- an operator token was read
                  dsimp only
                  have hb3 := tryReadOperator_length s (c :: rest₂) pos₁
                    op rest₃ pos₃ hop
                  simp only [List.length_cons] at hb3
                  exact ih rest₃ pos₃ _ (by omega)

/-- Counterexample to C9 as stated: on input `"-"` the tokenizer
raises the bare `ValueError` of `int("-")` — an error that carries no
offending position and no context window — so it is not true that
every failing input raises a SyntaxError carrying the offending
position and context. -/
theorem claim_C9_counterexample_bare_error :
    tokenize "-" = some (.error (.badNumberLiteral "-"))
    ∧ (TokErr.badNumberLiteral "-").hasPositionContext = false :=
  ⟨by decide, by decide⟩

/-- C9 (amended): `tokenize` is total and terminating — for every
input string the scan loop, given fuel `length + 1`, never exhausts it
(every iteration strictly consumes input or raises), and it either
raises an error (a positioned SyntaxError from the scanner, or a bare
number-conversion/index error without a position) or returns a finite
token sequence whose last token is Eof. -/
theorem claim_C9_tokenize_total :
    ∀ (s : String), ∃ r, tokenize s = some r ∧
      ∀ ts, r = .ok ts → ∃ pre p, ts = pre ++ [⟨.eof, .null, p⟩] := by
  intro s
  exact tokenizeAux_total s.toList (s.toList.length + 1) s.toList 0 [] (by omega)

/-- Witness for C9: the totality statement instantiated at a concrete
input. -/
theorem claim_C9_tokenize_total_witness :
    ∃ r, tokenize "age >= 18" = some r ∧
      ∀ ts, r = .ok ts → ∃ pre p, ts = pre ++ [⟨.eof, .null, p⟩] :=
  claim_C9_tokenize_total "age >= 18"

end RuleEngine
